import Mathlib

/-!
# chatapp-service-backend: the HTTP gateway of `main.go`

A shallow embedding of `corsMiddleware`, `sendHandler` and `receiveHandler`.

* A Go `string` / `[]byte` is the list of its bytes (`GoString`), a byte a `Nat`.
* An `http.ResponseWriter` is the record of what the handler handed to it:
  the header map, the status of the first `WriteHeader`, the bytes written.
  `WriteHeader` panics on a code that is not of three digits; a handler that
  panics ends as `Served.panicked`.
* The pub/sub service is the environment (`Upstream`): it answers a POST with a
  status or a transport error, and a GET with a transport error or a response
  body, given as the results of the successive `Read` calls on it.
* Every call to the pub/sub service is logged in the `Exchange`.
* The two goroutines of a subscription (relay loop and disconnect watcher) are a
  step machine (`Session`) whose executions are lists of events.
* `net/url`, `unicode/utf8` and `encoding/json` are embedded as far as the
  handlers use them: the query of a request, `json.Unmarshal` into a struct of two
  strings (the scanner with its depth limit, string literals with their escapes,
  field names matched up to case), `json.Marshal` of a map of two strings.
-/

namespace Gateway

/-! ## Bytes and text -/

/-- A Go `string` or `[]byte`: its bytes, each a number below 256. -/
abbrev GoString := List Nat

/-- The bytes `utf8.EncodeRune` writes for the rune `r`; a surrogate or a value
above U+10FFFF is written as U+FFFD. -/
def encodeRune (r : Nat) : List Nat :=
  if r < 0x80 then [r]
  else if r < 0x800 then [0xC0 + r / 64, 0x80 + r % 64]
  else if 0x10FFFF < r ∨ (0xD800 ≤ r ∧ r ≤ 0xDFFF) then [0xEF, 0xBF, 0xBD]
  else if r < 0x10000 then [0xE0 + r / 4096, 0x80 + r / 64 % 64, 0x80 + r % 64]
  else [0xF0 + r / 262144, 0x80 + r / 4096 % 64, 0x80 + r / 64 % 64, 0x80 + r % 64]

/-- A string literal of the source, as its UTF-8 bytes. -/
def lit (s : String) : GoString := s.data.flatMap (fun c => encodeRune c.toNat)

/-- A byte literal of the source, such as `'&'`. -/
def ch (c : Char) : Nat := c.toNat

/-! ## net/http: the response writer -/

abbrev Header := List (GoString × GoString)

/-- `Header.Set`: the value of `key` is replaced, or the entry added. -/
def Header.set (h : Header) (key value : GoString) : Header :=
  if h.any (fun p => p.1 == key) then
    h.map (fun p => if p.1 == key then (key, value) else p)
  else h ++ [(key, value)]

structure ResponseWriter where
  /-- The map behind `w.Header()`. -/
  header : Header
  /-- The status sent, once `WriteHeader` has been called (or a first `Write`). -/
  status : Option Nat
  /-- The header as it was sent with the status. -/
  sent : Header
  /-- The bytes written to the client so far (handed to `Write`), in order. -/
  body : List Nat
  /-- How many bytes of `body` have been flushed to the connection. -/
  flushed : Nat
  /-- The interim 1xx responses sent before the status, each with the header it
  was sent with. -/
  interim : List (Nat × Header) := []
deriving DecidableEq, Repr

/-- The response writer the server hands to a handler. -/
def ResponseWriter.fresh : ResponseWriter :=
  { header := [], status := none, sent := [], body := [], flushed := 0 }

/-- The call `w.Header().Set(key, value)`. -/
def ResponseWriter.setHeader (w : ResponseWriter) (key value : GoString) : ResponseWriter :=
  { w with header := w.header.set key value }

def StatusSwitchingProtocols : Nat := 101

def StatusOK : Nat := 200

def StatusBadRequest : Nat := 400

def StatusInternalServerError : Nat := 500

/-- The call `w.WriteHeader(code)`; `none` when it panics. A call after the
status was sent is ignored. Else a code below 100 or above 999 panics
(`checkWriteHeaderCode`), an interim code (1xx other than 101) is sent at once
with the header and leaves the status to come, and any other code is sent as the
status, with the header. -/
def ResponseWriter.writeHeader (w : ResponseWriter) (code : Nat) : Option ResponseWriter :=
  match w.status with
  | some _ => some w
  | none =>
    if code < 100 ∨ 999 < code then none
    else if 100 ≤ code ∧ code ≤ 199 ∧ code ≠ StatusSwitchingProtocols then
      some { w with interim := w.interim ++ [(code, w.header)] }
    else some { w with status := some code, sent := w.header }

/-- The call `w.Write(p)`: the bytes handed to the writer; status 200 is sent
first when no status was sent (`WriteHeader(StatusOK)`, which does not panic). -/
def ResponseWriter.write (w : ResponseWriter) (p : List Nat) : ResponseWriter :=
  match w.writeHeader StatusOK with
  | some w1 => { w1 with body := w1.body ++ p }
  | none => w

/-- The call `w.(http.Flusher).Flush()`. -/
def ResponseWriter.flush (w : ResponseWriter) : ResponseWriter :=
  match w.writeHeader StatusOK with
  | some w1 => { w1 with flushed := w1.body.length }
  | none => w

/-- The function `http.Error(w, error, code)`: a plain-text reply, the message
followed by a newline (`fmt.Fprintln`); `none` when `WriteHeader(code)` panics. -/
def httpError (w : ResponseWriter) (error : GoString) (code : Nat) : Option ResponseWriter :=
  let w1 := w.setHeader (lit "Content-Type") (lit "text/plain; charset=utf-8")
  let w2 := w1.setHeader (lit "X-Content-Type-Options") (lit "nosniff")
  match w2.writeHeader code with
  | some w3 => some (w3.write (error ++ lit "\n"))
  | none => none

/-! ## The request, the pub/sub service and the exchange -/

structure Request where
  /-- The field `r.Method`. -/
  method : GoString
  /-- The field `r.URL.Path`. -/
  path : GoString
  /-- The field `r.URL.RawQuery`. -/
  rawQuery : GoString
  /-- What `ioutil.ReadAll(r.Body)` returns: the bytes, or `none` for an error. -/
  body : Option GoString
deriving DecidableEq, Repr

/-- One `Read` on the upstream response body: the bytes `buf[:n]` and whether
`err` is non-nil (an error or `io.EOF`). -/
structure ReadResult where
  data : List Nat
  err : Bool
deriving DecidableEq, Repr

/-- A call to the pub/sub service. -/
inductive Call where
  | get (url : GoString)
  | post (url contentType body : GoString)
deriving DecidableEq, Repr

/-- A status `resp.StatusCode` can hold after `http.Post`: the client reads three
digits and passes over the interim 1xx responses other than 101. -/
def clientStatus (s : Nat) : Bool :=
  s ≤ 999 ∧ ¬(100 ≤ s ∧ s ≤ 199 ∧ s ≠ StatusSwitchingProtocols)

/-- The pub/sub service as the handlers see it. -/
structure Upstream where
  /-- Answer of `http.Post(url, contentType, body)`: the status of the response, or
  `none` when the call returns an error. -/
  post : GoString → GoString → GoString → Option Nat
  /-- Answer of `http.Get(url)`: `none` when the call returns an error, else the
  results of the successive `Read` calls on the response body. -/
  get : GoString → Option (List ReadResult)

/-- One request being served: the response writer and the calls made upstream. -/
structure Exchange where
  w : ResponseWriter
  calls : List Call
deriving DecidableEq, Repr

/-- The exchange at the start of a request. -/
def Exchange.fresh : Exchange := { w := ResponseWriter.fresh, calls := [] }

/-- Where a handler stands when nothing more happens on its own. -/
inductive Served where
  /-- The handler has returned. -/
  | returned (x : Exchange)
  /-- The relay loop is over and the handler waits in `wg.Wait()` for the
  disconnect watcher. -/
  | awaiting (x : Exchange)
  /-- The handler waits in `resp.Body.Read` for a result the upstream has not
  produced. -/
  | reading (x : Exchange)
  /-- The handler has panicked in `WriteHeader`: the server drops the connection
  and what was not yet sent; `x` holds the writer as it was before the call and
  the calls made upstream. -/
  | panicked (x : Exchange)
deriving DecidableEq, Repr

/-- The exchange as the handler left it. -/
def Served.exchange : Served → Exchange
  | Served.returned x => x
  | Served.awaiting x => x
  | Served.reading x => x
  | Served.panicked x => x

/-- The end of a handler at its last call on the writer `w0`: it returns with the
writer the call has left, or it has panicked in the call. -/
def Served.after (w0 : ResponseWriter) (calls : List Call) : Option ResponseWriter → Served
  | some w => Served.returned { w := w, calls := calls }
  | none => Served.panicked { w := w0, calls := calls }

abbrev Handler := Request → Exchange → Served

structure ChatApp where
  pubsubURL : GoString
deriving DecidableEq, Repr

def NewChatApp (pubsubURL : GoString) : ChatApp := { pubsubURL := pubsubURL }

/-! ## corsMiddleware -/

/-- The handler `corsMiddleware(next)`. -/
def corsMiddleware (_ca : ChatApp) (next : Handler) : Handler := fun r x =>
  let w1 := x.w.setHeader (lit "Access-Control-Allow-Origin") (lit "*")
  let w2 := w1.setHeader (lit "Access-Control-Allow-Methods") (lit "GET, POST, OPTIONS")
  let w3 := w2.setHeader (lit "Access-Control-Allow-Headers") (lit "Content-Type")
  if r.method = lit "OPTIONS" then
    Served.after w3 x.calls (w3.writeHeader StatusOK)
  else
    next r { x with w := w3 }

/-! ## net/url: the query of a request -/

/-- The function `strings.Cut(s, sep)` for a separator of one byte: the text
before the first `sep`, and the text after it when there is one. -/
def cut (sep : Nat) : GoString → GoString × Option GoString
  | [] => ([], none)
  | c :: rest =>
    if c = sep then ([], some rest)
    else ((c :: (cut sep rest).1), (cut sep rest).2)

def ishex (c : Nat) : Bool :=
  (ch '0' ≤ c ∧ c ≤ ch '9') ∨ (ch 'a' ≤ c ∧ c ≤ ch 'f') ∨ (ch 'A' ≤ c ∧ c ≤ ch 'F')

def unhex (c : Nat) : Nat :=
  if ch '0' ≤ c ∧ c ≤ ch '9' then c - ch '0'
  else if ch 'a' ≤ c ∧ c ≤ ch 'f' then c - ch 'a' + 10
  else if ch 'A' ≤ c ∧ c ≤ ch 'F' then c - ch 'A' + 10
  else 0

/-- The function `url.QueryUnescape`: `%XY` is the byte XY, `+` a space; `none`
for a `%` not followed by two hex digits. -/
def QueryUnescape : GoString → Option GoString
  | [] => some []
  | c :: rest =>
    if c = ch '%' then
      match rest with
      | a :: b :: rest2 =>
        if ishex a ∧ ishex b then
          (QueryUnescape rest2).map (fun t => (unhex a * 16 + unhex b) :: t)
        else none
      | _ => none
    else if c = ch '+' then (QueryUnescape rest).map (fun t => ch ' ' :: t)
    else (QueryUnescape rest).map (fun t => c :: t)

/-- The loop of `url.ParseQuery`: the pairs in the order they are appended to
the map; a piece with a semicolon or a bad escape is skipped. -/
def parseQuery : Nat → GoString → List (GoString × GoString)
  | 0, _ => []
  | fuel + 1, query =>
    if query = [] then []
    else
      let key := (cut (ch '&') query).1
      let query1 := ((cut (ch '&') query).2).getD []
      if ch ';' ∈ key then parseQuery fuel query1
      else if key = [] then parseQuery fuel query1
      else
        let value := ((cut (ch '=') key).2).getD []
        match QueryUnescape (cut (ch '=') key).1, QueryUnescape value with
        | some k, some v => (k, v) :: parseQuery fuel query1
        | _, _ => parseQuery fuel query1

/-- The method `r.URL.Query()`; each turn of the loop takes at least one byte. -/
def Query (rawQuery : GoString) : List (GoString × GoString) :=
  parseQuery rawQuery.length rawQuery

/-- The method `Values.Get`: the first value of `key`, empty when there is none. -/
def Values.Get (v : List (GoString × GoString)) (key : GoString) : GoString :=
  match v.find? (fun p => p.1 == key) with
  | some p => p.2
  | none => []

/-- The `RawQuery` of a URL as `url.Parse` cuts it: the fragment from the first
`#` on is dropped, the query is what follows the first `?`. -/
def rawQueryOf (url : GoString) : GoString :=
  ((cut (ch '?') (cut (ch '#') url).1).2).getD []

/-- The topic the pub/sub service reads from the URL it is asked for, taken to be
the value of the query parameter `topic` of that URL, read the way
`receiveHandler` reads the one of its own request (`URL.Query().Get("topic")`). -/
def upstreamTopic (url : GoString) : GoString :=
  Values.Get (Query (rawQueryOf url)) (lit "topic")

/-! ## receiveHandler -/

/-- One event-stream record, `fmt.Fprintf(w, "data: %s\n\n", message)`. -/
def record (chunk : List Nat) : List Nat := lit "data: " ++ chunk ++ lit "\n\n"

/-- The body of the relay loop up to the test of `err`: a read of `n > 0` bytes
is written as one event-stream record and flushed. -/
def relayStep (w : ResponseWriter) (r : ReadResult) : ResponseWriter :=
  if 0 < r.data.length then
    (w.write (record r.data)).flush
  else w

/-- The relay loop over the results of the successive reads: it ends at the
first read with an error; `none` when the reads run out before that. -/
def relayLoop : List ReadResult → ResponseWriter → Option ResponseWriter
  | [], _ => none
  | r :: rest, w =>
    if r.err then some (relayStep w r) else relayLoop rest (relayStep w r)

/-- What the relay loop has written when the reads run out before an error. -/
def relaySoFar (reads : List ReadResult) (w : ResponseWriter) : ResponseWriter :=
  reads.foldl relayStep w

/-- The target of the upstream GET, `fmt.Sprintf("%s/subscribe?topic=%s", ...)`. -/
def subURL (ca : ChatApp) (topic : GoString) : GoString :=
  ca.pubsubURL ++ lit "/subscribe?topic=" ++ topic

/-- The handler `receiveHandler`, up to the point where its main goroutine
returns or waits. -/
def receiveHandler (ca : ChatApp) (up : Upstream) : Handler := fun r x =>
  if r.method = lit "OPTIONS" then
    Served.after x.w x.calls (x.w.writeHeader StatusOK)
  else
    let topic := Values.Get (Query r.rawQuery) (lit "topic")
    if topic = [] then
      Served.after x.w x.calls (httpError x.w (lit "Missing topic") StatusBadRequest)
    else
      let w1 := x.w.setHeader (lit "Content-Type") (lit "text/event-stream")
      let w2 := w1.setHeader (lit "Cache-Control") (lit "no-cache")
      let w3 := w2.setHeader (lit "Connection") (lit "keep-alive")
      let calls := x.calls ++ [Call.get (subURL ca topic)]
      match up.get (subURL ca topic) with
      | none =>
        Served.after w3 calls
          (httpError w3 (lit "Failed to subscribe to topic") StatusInternalServerError)
      | some reads =>
        match relayLoop reads w3 with
        | some w4 => Served.awaiting { w := w4, calls := calls }
        | none => Served.reading { w := relaySoFar reads w3, calls := calls }

/-! ## The subscription session: relay loop and disconnect watcher -/

/-- Where the main goroutine of `receiveHandler` stands. -/
inductive MainPC where
  /-- In the relay loop, at `resp.Body.Read`. -/
  | loop
  /-- Past the loop, at `wg.Wait()`. -/
  | wait
  /-- Returned from the handler. -/
  | done
deriving DecidableEq, Repr

/-- Where the watcher goroutine stands. -/
inductive WatcherPC where
  /-- At `<-notify`. -/
  | recv
  /-- At `resp.Body.Close()`. -/
  | close
  /-- At `wg.Done()`. -/
  | signal
  /-- Finished. -/
  | exit
deriving DecidableEq, Repr

structure Session where
  w : ResponseWriter
  main : MainPC
  watcher : WatcherPC
  /-- A value is waiting in the channel of `CloseNotify`. -/
  notify : Bool
  /-- The client connection has gone away. -/
  gone : Bool
  /-- How many times `resp.Body.Close()` has been called. -/
  closes : Nat
  /-- The counter of the `sync.WaitGroup`. -/
  wg : Nat
deriving DecidableEq, Repr

/-- The session right after `go func() {...}()`: `wg.Add(1)` is done, both
goroutines are at their first statement. -/
def Session.start (w : ResponseWriter) : Session :=
  { w := w, main := MainPC.loop, watcher := WatcherPC.recv, notify := false, gone := false,
    closes := 0, wg := 1 }

/-- What can happen next in a session. -/
inductive Event where
  /-- An upstream read of the main goroutine returns. -/
  | read (r : ReadResult)
  /-- The client connection goes away: the server sends on the notify channel. -/
  | disconnect
  /-- The watcher goroutine runs its next statement. -/
  | watcher
  /-- The main goroutine gets past `wg.Wait()`. -/
  | wait
deriving DecidableEq, Repr

/-- One step of a session; `none` when the event cannot happen in the state. -/
def Session.step (s : Session) : Event → Option Session
  | Event.read r =>
    match s.main with
    | MainPC.loop =>
      some { s with w := relayStep s.w r, main := if r.err then MainPC.wait else MainPC.loop }
    | _ => none
  | Event.disconnect =>
    if s.gone then none else some { s with notify := true, gone := true }
  | Event.watcher =>
    match s.watcher with
    | WatcherPC.recv =>
      if s.notify then some { s with notify := false, watcher := WatcherPC.close } else none
    | WatcherPC.close => some { s with closes := s.closes + 1, watcher := WatcherPC.signal }
    | WatcherPC.signal => some { s with wg := s.wg - 1, watcher := WatcherPC.exit }
    | WatcherPC.exit => none
  | Event.wait =>
    match s.main with
    | MainPC.wait => if s.wg = 0 then some { s with main := MainPC.done } else none
    | _ => none

/-- An execution: the events in the order they happen. -/
def Session.run (s : Session) : List Event → Option Session
  | [] => some s
  | e :: es =>
    match s.step e with
    | some s1 => Session.run s1 es
    | none => none

/-! ## unicode/utf8 -/

/-- The rune U+FFFD that stands for bytes that are not UTF-8. -/
def RuneError : Nat := 0xFFFD

/-- The least second byte `utf8.DecodeRune` accepts after the first byte `b0`. -/
def acceptLo (b0 : Nat) : Nat := if b0 = 0xE0 then 0xA0 else if b0 = 0xF0 then 0x90 else 0x80

/-- The greatest second byte `utf8.DecodeRune` accepts after the first byte `b0`. -/
def acceptHi (b0 : Nat) : Nat := if b0 = 0xED then 0x9F else if b0 = 0xF4 then 0x8F else 0xBF

/-- The function `utf8.DecodeRune`: the first rune of `p` and its width in bytes;
`(RuneError, 1)` when `p` does not start with a well-formed rune, `(RuneError, 0)`
when it is empty. -/
def DecodeRune : List Nat → Nat × Nat
  | [] => (RuneError, 0)
  | b0 :: rest =>
    if b0 < 0x80 then (b0, 1)
    else if b0 < 0xC2 ∨ 0xF4 < b0 then (RuneError, 1)
    else
      match rest with
      | [] => (RuneError, 1)
      | b1 :: rest1 =>
        if b1 < acceptLo b0 ∨ acceptHi b0 < b1 then (RuneError, 1)
        else if b0 < 0xE0 then (b0 % 32 * 64 + b1 % 64, 2)
        else
          match rest1 with
          | [] => (RuneError, 1)
          | b2 :: rest2 =>
            if b2 < 0x80 ∨ 0xBF < b2 then (RuneError, 1)
            else if b0 < 0xF0 then (b0 % 16 * 4096 + b1 % 64 * 64 + b2 % 64, 3)
            else
              match rest2 with
              | [] => (RuneError, 1)
              | b3 :: _ =>
                if b3 < 0x80 ∨ 0xBF < b3 then (RuneError, 1)
                else (b0 % 8 * 262144 + b1 % 64 * 4096 + b2 % 64 * 64 + b3 % 64, 4)

/-- The string as a loop `i += size` over `utf8.DecodeRune` reads it: each rune
with the bytes it was read from. The first argument counts the bytes still to
pass of the rune read last. -/
def runesFrom : Nat → GoString → List (Nat × GoString)
  | _, [] => []
  | skip + 1, _ :: rest => runesFrom skip rest
  | 0, b :: rest =>
    ((DecodeRune (b :: rest)).1, (b :: rest).take (DecodeRune (b :: rest)).2) ::
      runesFrom ((DecodeRune (b :: rest)).2 - 1) rest

def runes (s : GoString) : List (Nat × GoString) := runesFrom 0 s

/-! ## encoding/json: Marshal of a map of strings -/

/-- The table `hex = "0123456789abcdef"`. -/
def hexDigit (n : Nat) : Nat := if n < 10 then ch '0' + n else ch 'a' + (n - 10)

/-- The table `htmlSafeSet`: the ASCII bytes written as they are. -/
def htmlSafe (b : Nat) : Bool :=
  0x20 ≤ b ∧ b < 0x80 ∧ b ≠ ch '"' ∧ b ≠ ch '\\' ∧ b ≠ ch '<' ∧ b ≠ ch '>' ∧ b ≠ ch '&'

/-- What `appendString` (with `escapeHTML`) writes for one rune `c` read from the
bytes `raw`. -/
def escapeRune (c : Nat) (raw : GoString) : GoString :=
  if c < 0x80 ∧ raw.length = 1 then
    if htmlSafe c then [c]
    else if c = ch '\\' ∨ c = ch '"' then [ch '\\', c]
    else if c = 8 then [ch '\\', ch 'b']
    else if c = 12 then [ch '\\', ch 'f']
    else if c = ch '\n' then [ch '\\', ch 'n']
    else if c = ch '\r' then [ch '\\', ch 'r']
    else if c = ch '\t' then [ch '\\', ch 't']
    else [ch '\\', ch 'u', ch '0', ch '0', hexDigit (c / 16), hexDigit (c % 16)]
  else if c = RuneError ∧ raw.length = 1 then lit "\\ufffd"
  else if c = 0x2028 ∨ c = 0x2029 then lit "\\u202" ++ [hexDigit (c % 16)]
  else raw

/-- The function `appendString`: the JSON string literal for `src`. -/
def appendString (src : GoString) : GoString :=
  [ch '"'] ++ (runes src).flatMap (fun p => escapeRune p.1 p.2) ++ [ch '"']

/-- The struct `req` of `sendHandler`. -/
structure PublishReq where
  Topic : GoString
  Message : GoString
deriving DecidableEq, Repr

/-- The call `json.Marshal(map[string]string{"topic": ..., "message": ...})`: the
keys are written in sorted order. -/
def Marshal (req : PublishReq) : GoString :=
  lit "\x7b" ++ appendString (lit "message") ++ lit ":" ++ appendString req.Message ++ lit ","
    ++ appendString (lit "topic") ++ lit ":" ++ appendString req.Topic ++ lit "\x7d"

/-! ## encoding/json: Unmarshal into the request struct -/

def isSpace (c : Nat) : Bool := c = ch ' ' ∨ c = ch '\t' ∨ c = ch '\r' ∨ c = ch '\n'

def skipSpace : List Nat → List Nat
  | [] => []
  | c :: rest => if isSpace c then skipSpace rest else c :: rest

def isDigit (c : Nat) : Bool := ch '0' ≤ c ∧ c ≤ ch '9'

def skipDigits : List Nat → List Nat
  | [] => []
  | c :: rest => if isDigit c then skipDigits rest else c :: rest

/-- The exponent of a number, if there is one: `e` or `E`, a sign if any, digits. -/
def scanExp : List Nat → Option (List Nat)
  | [] => some []
  | c :: rest =>
    if c = ch 'e' ∨ c = ch 'E' then
      match rest with
      | [] => none
      | s :: rest1 =>
        if s = ch '+' ∨ s = ch '-' then
          match rest1 with
          | [] => none
          | d :: rest2 => if isDigit d then some (skipDigits rest2) else none
        else if isDigit s then some (skipDigits rest1)
        else none
    else some (c :: rest)

/-- The fraction of a number, if there is one, and the exponent. -/
def scanFrac : List Nat → Option (List Nat)
  | [] => some []
  | c :: rest =>
    if c = ch '.' then
      match rest with
      | [] => none
      | d :: rest1 => if isDigit d then scanExp (skipDigits rest1) else none
    else scanExp (c :: rest)

/-- The digits of a number after the sign. -/
def scanInt : List Nat → Option (List Nat)
  | [] => none
  | c :: rest =>
    if c = ch '0' then scanFrac rest
    else if isDigit c then scanFrac (skipDigits rest)
    else none

/-- A JSON number at the head of the input: what follows it. -/
def scanNumber : List Nat → Option (List Nat)
  | [] => none
  | c :: rest => if c = ch '-' then scanInt rest else scanInt (c :: rest)

/-- The input after the text `word`, when it starts with it. -/
def expect : GoString → List Nat → Option (List Nat)
  | [], input => some input
  | _ :: _, [] => none
  | a :: word, c :: input => if a = c then expect word input else none

/-- The rune of four hex digits. -/
def hex4 (a b c d : Nat) : Nat := ((unhex a * 16 + unhex b) * 16 + unhex c) * 16 + unhex d

/-- The function `getu4`: the rune of a `\uXXXX` at the head of the input. -/
def getu4 : List Nat → Option Nat
  | bs :: u :: a :: b :: c :: d :: _ =>
    if bs = ch '\\' ∧ u = ch 'u' ∧ ishex a ∧ ishex b ∧ ishex c ∧ ishex d then some (hex4 a b c d)
    else none
  | _ => none

/-- The byte a one-letter escape stands for. -/
def unescapeByte (e : Nat) : Option Nat :=
  if e = ch '"' ∨ e = ch '\\' ∨ e = ch '/' then some e
  else if e = ch 'b' then some 8
  else if e = ch 'f' then some 12
  else if e = ch 'n' then some (ch '\n')
  else if e = ch 'r' then some (ch '\r')
  else if e = ch 't' then some (ch '\t')
  else none

/-- One turn of the loop of `unquoteBytes` inside a string literal. -/
inductive StringItem where
  /-- The closing quote. -/
  | close
  /-- A byte no string may hold, or a malformed escape. -/
  | bad
  /-- The bytes `out` are added to the string, `width` bytes of input are taken. -/
  | item (out : GoString) (width : Nat)
deriving DecidableEq, Repr

/-- What stands at the head of the input inside a string literal. -/
def stringItem : List Nat → StringItem
  | [] => StringItem.bad
  | c :: rest =>
    if c = ch '"' then StringItem.close
    else if c = ch '\\' then
      match rest with
      | [] => StringItem.bad
      | e :: _ =>
        if e = ch 'u' then
          match getu4 (c :: rest) with
          | none => StringItem.bad
          | some rr =>
            if 0xD800 ≤ rr ∧ rr < 0xE000 then
              match getu4 (rest.drop 5) with
              | some rr1 =>
                if rr < 0xDC00 ∧ 0xDC00 ≤ rr1 ∧ rr1 < 0xE000 then
                  StringItem.item
                    (encodeRune ((rr - 0xD800) * 1024 + (rr1 - 0xDC00) + 0x10000)) 12
                else StringItem.item (encodeRune RuneError) 6
              | none => StringItem.item (encodeRune RuneError) 6
            else StringItem.item (encodeRune rr) 6
        else
          match unescapeByte e with
          | some b => StringItem.item [b] 2
          | none => StringItem.bad
    else if c < 0x20 then StringItem.bad
    else if c < 0x80 then StringItem.item [c] 1
    else
      StringItem.item (encodeRune (DecodeRune (c :: rest)).1) (DecodeRune (c :: rest)).2

/-- The string literal whose opening quote has been read: its value and what
follows the closing quote. The first argument counts the bytes still to pass of
the item read last. -/
def readStringFrom : Nat → List Nat → Option (GoString × List Nat)
  | _, [] => none
  | skip + 1, _ :: rest => readStringFrom skip rest
  | 0, c :: rest =>
    match stringItem (c :: rest) with
    | StringItem.close => some ([], rest)
    | StringItem.bad => none
    | StringItem.item out width =>
      match readStringFrom (width - 1) rest with
      | some (s, after) => some (out ++ s, after)
      | none => none

def readString (input : List Nat) : Option (GoString × List Nat) := readStringFrom 0 input

/-- What `Unmarshal` into a struct of strings needs of a JSON value. -/
inductive Val where
  | str (s : GoString)
  | null
  /-- A number, `true`, `false`, an array or an object. -/
  | other
deriving DecidableEq, Repr

/-- The constant `maxNestingDepth` of the scanner. -/
def maxNestingDepth : Nat := 10000

mutual

/-- A JSON value at the head of the input, after white space: the value and what
follows it. `depth` counts the arrays and objects open around it. -/
def scanValue : Nat → Nat → List Nat → Option (Val × List Nat)
  | 0, _, _ => none
  | fuel + 1, depth, input =>
    match skipSpace input with
    | [] => none
    | c :: rest =>
      if c = ch '\x7b' then
        if maxNestingDepth ≤ depth then none
        else
          match skipSpace rest with
          | [] => none
          | c1 :: rest1 =>
            if c1 = ch '\x7d' then some (Val.other, rest1)
            else
              match scanMembers fuel (depth + 1) (c1 :: rest1) with
              | some (_, after) => some (Val.other, after)
              | none => none
      else if c = ch '[' then
        if maxNestingDepth ≤ depth then none
        else
          match skipSpace rest with
          | [] => none
          | c1 :: rest1 =>
            if c1 = ch ']' then some (Val.other, rest1)
            else
              match scanValue fuel (depth + 1) (c1 :: rest1) with
              | some (_, after) => scanElems fuel (depth + 1) after
              | none => none
      else if c = ch '"' then
        match readString rest with
        | some (s, after) => some (Val.str s, after)
        | none => none
      else if c = ch '-' ∨ isDigit c then
        match scanNumber (c :: rest) with
        | some after => some (Val.other, after)
        | none => none
      else if c = ch 't' then
        match expect (lit "rue") rest with
        | some after => some (Val.other, after)
        | none => none
      else if c = ch 'f' then
        match expect (lit "alse") rest with
        | some after => some (Val.other, after)
        | none => none
      else if c = ch 'n' then
        match expect (lit "ull") rest with
        | some after => some (Val.null, after)
        | none => none
      else none

/-- The rest of an array after one of its values: a comma and a value, again and
again, up to the closing bracket. -/
def scanElems : Nat → Nat → List Nat → Option (Val × List Nat)
  | 0, _, _ => none
  | fuel + 1, depth, input =>
    match skipSpace input with
    | [] => none
    | c :: rest =>
      if c = ch ']' then some (Val.other, rest)
      else if c = ch ',' then
        match scanValue fuel depth rest with
        | some (_, after) => scanElems fuel depth after
        | none => none
      else none

/-- The members of an object from a key on, up to the closing brace: the keys
with their values, in order. -/
def scanMembers : Nat → Nat → List Nat → Option (List (GoString × Val) × List Nat)
  | 0, _, _ => none
  | fuel + 1, depth, input =>
    match skipSpace input with
    | [] => none
    | q :: rest =>
      if q = ch '"' then
        match readString rest with
        | none => none
        | some (key, rest1) =>
          match skipSpace rest1 with
          | [] => none
          | colon :: rest2 =>
            if colon = ch ':' then
              match scanValue fuel depth rest2 with
              | none => none
              | some (v, rest3) =>
                match skipSpace rest3 with
                | [] => none
                | c :: rest4 =>
                  if c = ch '\x7d' then some ([(key, v)], rest4)
                  else if c = ch ',' then
                    match scanMembers fuel depth rest4 with
                    | some (more, after) => some ((key, v) :: more, after)
                    | none => none
                  else none
            else none
      else none

end

/-- What `Unmarshal` into a struct needs of a JSON text. -/
inductive Top where
  /-- An object: its keys with their values, in order. -/
  | obj (members : List (GoString × Val))
  | null
  /-- A string, a number, `true`, `false` or an array. -/
  | other
deriving DecidableEq, Repr

/-- The JSON text `data` as `checkValid` accepts it: one value between white
space; `none` for a syntax error. Every call of the scanner takes a byte, so
`data.length + 1` calls are enough. -/
def parseTop (data : GoString) : Option Top :=
  match skipSpace data with
  | [] => none
  | c :: rest =>
    if c = ch '\x7b' then
      match skipSpace rest with
      | [] => none
      | c1 :: rest1 =>
        if c1 = ch '\x7d' then
          if skipSpace rest1 = [] then some (Top.obj []) else none
        else
          match scanMembers data.length 1 (c1 :: rest1) with
          | some (members, after) => if skipSpace after = [] then some (Top.obj members) else none
          | none => none
    else
      match scanValue (data.length + 1) 0 (c :: rest) with
      | some (Val.null, after) => if skipSpace after = [] then some Top.null else none
      | some (_, after) => if skipSpace after = [] then some Top.other else none
      | none => none

/-- The function `foldRune` on the runes that fold to an ASCII letter: the long s
and the Kelvin sign; the other runes outside ASCII fold to runes outside ASCII
and are left as they are. -/
def foldRune (r : Nat) : Nat := if r = 0x17F then ch 'S' else if r = 0x212A then ch 'K' else r

/-- The function `foldName`: the name with its letters in upper case. -/
def foldName (name : GoString) : GoString :=
  (runes name).flatMap (fun p =>
    if p.1 < 0x80 ∧ p.2.length = 1 then
      (if ch 'a' ≤ p.1 ∧ p.1 ≤ ch 'z' then [p.1 - 32] else [p.1])
    else encodeRune (foldRune p.1))

/-- The fields of the request struct. -/
inductive Field where
  | Topic
  | Message
deriving DecidableEq, Repr

/-- The field an object key stands for: the one with that very name, else the
one with that name up to case. -/
def fieldOf (key : GoString) : Option Field :=
  if key = lit "topic" then some Field.Topic
  else if key = lit "message" then some Field.Message
  else if foldName key = foldName (lit "topic") then some Field.Topic
  else if foldName key = foldName (lit "message") then some Field.Message
  else none

/-- The members of an object stored into the struct, in order: a string sets its
field, `null` leaves it, any other value for a field is an
`UnmarshalTypeError`; a key that names no field is passed over. -/
def storeMembers : List (GoString × Val) → PublishReq → Option PublishReq
  | [], req => some req
  | (key, v) :: more, req =>
    match fieldOf key, v with
    | none, _ => storeMembers more req
    | some _, Val.null => storeMembers more req
    | some Field.Topic, Val.str s => storeMembers more { req with Topic := s }
    | some Field.Message, Val.str s => storeMembers more { req with Message := s }
    | some _, Val.other => none

/-- The call `json.Unmarshal(body, &req)` on the zero struct: the struct when
`err` is nil. -/
def Unmarshal (data : GoString) : Option PublishReq :=
  match parseTop data with
  | none => none
  | some Top.other => none
  | some Top.null => some { Topic := [], Message := [] }
  | some (Top.obj members) => storeMembers members { Topic := [], Message := [] }

/-- The members of the object the JSON text `body` is; none when it is not an
object. -/
def membersOf (body : GoString) : List (GoString × Val) :=
  match parseTop body with
  | some (Top.obj members) => members
  | _ => []

/-- Some member of the object `body` names the field, up to case. -/
def namesField (body : GoString) (f : Field) : Bool :=
  (membersOf body).any (fun kv => fieldOf kv.1 == some f)

/-! ## sendHandler -/

/-- The handler `sendHandler`. -/
def sendHandler (ca : ChatApp) (up : Upstream) : Handler := fun r x =>
  if r.method = lit "OPTIONS" then
    Served.after x.w x.calls (x.w.writeHeader StatusOK)
  else
    match r.body with
    | none =>
      Served.after x.w x.calls (httpError x.w (lit "Cannot read body") StatusBadRequest)
    | some body =>
      match Unmarshal body with
      | none =>
        Served.after x.w x.calls (httpError x.w (lit "Invalid JSON") StatusBadRequest)
      | some req =>
        let pubURL := ca.pubsubURL ++ lit "/publish"
        let pubReqBody := Marshal { Topic := req.Topic, Message := req.Message }
        let calls := x.calls ++ [Call.post pubURL (lit "application/json") pubReqBody]
        match up.post pubURL (lit "application/json") pubReqBody with
        | none =>
          Served.after x.w calls
            (httpError x.w (lit "Failed to publish message") StatusInternalServerError)
        | some code =>
          if code ≠ StatusOK then
            Served.after x.w calls (httpError x.w (lit "Failed to publish message") code)
          else
            Served.after x.w calls
              ((x.w.writeHeader StatusOK).map
                (fun w1 => w1.write (lit "Message sent successfully")))

/-! ## Examples and invariants used below -/

/-- The pub/sub service out of reach: every call returns an error. -/
def unreachable : Upstream := { post := fun _ _ _ => none, get := fun _ => none }

/-- The application as `main` builds it. -/
def chatApp : ChatApp := NewChatApp (lit "http://localhost:8080")

/-- A pub/sub service whose subscribe stream yields "hi", then nothing, then
"yo" together with the end of the stream. -/
def chatty : Upstream :=
  { post := fun _ _ _ => some 200,
    get := fun _ =>
      some [{ data := lit "hi", err := false }, { data := [], err := false },
        { data := lit "yo", err := true }] }

/-- What holds in every state a session can reach. -/
def Session.Inv (s : Session) : Prop :=
  (s.watcher = WatcherPC.recv → s.closes = 0 ∧ s.wg = 1) ∧
  (s.watcher = WatcherPC.close → s.closes = 0 ∧ s.wg = 1 ∧ s.gone = true ∧ s.notify = false) ∧
  (s.watcher = WatcherPC.signal → s.closes = 1 ∧ s.wg = 1 ∧ s.gone = true ∧ s.notify = false) ∧
  (s.watcher = WatcherPC.exit → s.closes = 1 ∧ s.wg = 0 ∧ s.gone = true ∧ s.notify = false) ∧
  (s.notify = true → s.gone = true) ∧
  (s.main = MainPC.done → s.wg = 0)

/-- A pub/sub service that answers every publish with 404. -/
def refusing : Upstream := { post := fun _ _ _ => some 404, get := fun _ => none }

/-- A pub/sub service that answers every publish with the status 099. -/
def garbled : Upstream := { post := fun _ _ _ => some 99, get := fun _ => none }

/-- A whole session: one chunk is relayed, the client goes away, the watcher
closes the body, the read fails, the watcher signals, the handler returns. -/
def oneChunkSession : List Event :=
  [Event.read (ReadResult.mk (lit "hi") false), Event.disconnect, Event.watcher, Event.watcher,
    Event.read (ReadResult.mk [] true), Event.watcher, Event.wait]

/-- The state at the end of `oneChunkSession`. -/
def oneChunkEnd : Session :=
  { w := relayStep ResponseWriter.fresh (ReadResult.mk (lit "hi") false),
    main := MainPC.done, watcher := WatcherPC.exit, notify := false, gone := true,
    closes := 1, wg := 0 }

/-- The state of a session whose first upstream read returned the end of the
stream while the client is still connected. -/
def streamEnded : Session :=
  { w := ResponseWriter.fresh, main := MainPC.wait, watcher := WatcherPC.recv,
    notify := false, gone := false, closes := 0, wg := 1 }

/-- The upstream reads among the events of a session, in order. -/
def readsOf : List Event → List ReadResult
  | [] => []
  | Event.read r :: es => r :: readsOf es
  | _ :: es => readsOf es


/-- A Unicode scalar value. -/
def Scalar (c : Nat) : Prop := c < 0xD800 ∨ (0xE000 ≤ c ∧ c < 0x110000)

/-- A string that is well-formed UTF-8: the encoding of scalar values. -/
def Valid (s : GoString) : Prop :=
  ∃ cs : List Nat, (∀ c ∈ cs, Scalar c) ∧ s = cs.flatMap encodeRune

/-- A publish request with both fields. -/
def postBoth : Request :=
  { method := lit "POST", path := lit "/send", rawQuery := [],
    body := some (lit "\x7b\"topic\":\"a\",\"message\":\"hi\"\x7d") }

/-- A publish request whose body is the empty object. -/
def postEmptyObject : Request :=
  { method := lit "POST", path := lit "/send", rawQuery := [], body := some (lit "\x7b\x7d") }

/-- A publish request without a message. -/
def postTopicOnly : Request :=
  { method := lit "POST", path := lit "/send", rawQuery := [],
    body := some (lit "\x7b\"topic\":\"a\"\x7d") }

/-- A publish request whose body is cut short. -/
def postBroken : Request :=
  { method := lit "POST", path := lit "/send", rawQuery := [],
    body := some (lit "\x7b\"topic\":") }

/-! # Properties -/

/-! ## Writer lemmas -/

theorem writeHeader_final (w : ResponseWriter) (code : Nat) (h : w.status = none)
    (h1 : 100 ≤ code) (h2 : code ≤ 999) (h3 : ¬(100 ≤ code ∧ code ≤ 199 ∧ code ≠ 101)) :
    w.writeHeader code = some { w with status := some code, sent := w.header } := by
  unfold ResponseWriter.writeHeader StatusSwitchingProtocols
  rw [h]
  simp only []
  rw [if_neg (by omega), if_neg h3]

theorem writeHeader_panics (w : ResponseWriter) (code : Nat) (h : w.status = none)
    (hc : code < 100 ∨ 999 < code) : w.writeHeader code = none := by
  unfold ResponseWriter.writeHeader
  rw [h]
  simp only []
  rw [if_pos hc]

theorem writeHeader_of_some (w : ResponseWriter) (code c : Nat) (h : w.status = some c) :
    w.writeHeader code = some w := by
  unfold ResponseWriter.writeHeader
  rw [h]

theorem writeHeader_ok (w : ResponseWriter) :
    ∃ w1, w.writeHeader StatusOK = some w1 ∧ w1.body = w.body ∧ w1.flushed = w.flushed ∧
      w1.status = some (w.status.getD 200) := by
  cases h : w.status with
  | none =>
    exact ⟨_, writeHeader_final w StatusOK h (by decide) (by decide) (by decide), rfl, rfl, rfl⟩
  | some c => exact ⟨w, writeHeader_of_some w StatusOK c h, rfl, rfl, by rw [h]; rfl⟩

@[simp] theorem setHeader_status (w : ResponseWriter) (k v : GoString) :
    (w.setHeader k v).status = w.status := rfl

@[simp] theorem setHeader_body (w : ResponseWriter) (k v : GoString) :
    (w.setHeader k v).body = w.body := rfl

@[simp] theorem write_body (w : ResponseWriter) (p : List Nat) :
    (w.write p).body = w.body ++ p := by
  obtain ⟨w1, h1, h2, _, _⟩ := writeHeader_ok w
  simp [ResponseWriter.write, h1, h2]

theorem write_status (w : ResponseWriter) (p : List Nat) :
    (w.write p).status = some (w.status.getD 200) := by
  obtain ⟨w1, h1, _, _, h4⟩ := writeHeader_ok w
  simp [ResponseWriter.write, h1, h4]

@[simp] theorem flush_body (w : ResponseWriter) : w.flush.body = w.body := by
  obtain ⟨w1, h1, h2, _, _⟩ := writeHeader_ok w
  simp [ResponseWriter.flush, h1, h2]

/-- The reply of `http.Error` with a code `WriteHeader` sends as the status. -/
theorem httpError_final (w : ResponseWriter) (msg : GoString) (code : Nat)
    (h : w.status = none) (h1 : 100 ≤ code) (h2 : code ≤ 999)
    (h3 : ¬(100 ≤ code ∧ code ≤ 199 ∧ code ≠ 101)) :
    ∃ w1, httpError w msg code = some w1 ∧ w1.status = some code ∧
      w1.body = w.body ++ (msg ++ lit "\n") ∧
      w1.sent = (w.header.set (lit "Content-Type") (lit "text/plain; charset=utf-8")).set
        (lit "X-Content-Type-Options") (lit "nosniff") := by
  unfold httpError
  simp only []
  rw [writeHeader_final _ code (by simpa using h) h1 h2 h3]
  refine ⟨_, rfl, ?_, ?_, ?_⟩
  · rw [write_status]; rfl
  · rw [write_body]; rfl
  · simp [ResponseWriter.write, ResponseWriter.writeHeader, ResponseWriter.setHeader]

/-- With a code below 100 or above 999 `http.Error` panics in `WriteHeader`. -/
theorem httpError_panics (w : ResponseWriter) (msg : GoString) (code : Nat)
    (h : w.status = none) (hc : code < 100 ∨ 999 < code) : httpError w msg code = none := by
  unfold httpError
  simp only []
  rw [writeHeader_panics _ code (by simpa using h) hc]

theorem writeHeader_body (w w1 : ResponseWriter) (code : Nat)
    (h : w.writeHeader code = some w1) : w1.body = w.body := by
  unfold ResponseWriter.writeHeader at h
  split at h
  · simp only [Option.some.injEq] at h; subst h; rfl
  · split_ifs at h <;> simp only [Option.some.injEq] at h <;> subst h <;> rfl

theorem httpError_body (w w1 : ResponseWriter) (msg : GoString) (code : Nat)
    (h : httpError w msg code = some w1) : w1.body = w.body ++ (msg ++ lit "\n") := by
  unfold httpError at h
  simp only [] at h
  split at h
  · rename_i w3 h3
    simp only [Option.some.injEq] at h
    subst h
    rw [write_body, writeHeader_body _ _ _ h3]
    rfl
  · exact absurd h (by simp)

/-- An interim code handed to `http.Error` is sent at once and does not count
as the status: the reply ends with status 200. -/
theorem httpError_interim :
    httpError ResponseWriter.fresh (lit "no") 150 = some
      { header :=
          [(lit "Content-Type", lit "text/plain; charset=utf-8"),
           (lit "X-Content-Type-Options", lit "nosniff")],
        status := some 200,
        sent :=
          [(lit "Content-Type", lit "text/plain; charset=utf-8"),
           (lit "X-Content-Type-Options", lit "nosniff")],
        body := lit "no\n",
        flushed := 0,
        interim :=
          [(150,
            [(lit "Content-Type", lit "text/plain; charset=utf-8"),
             (lit "X-Content-Type-Options", lit "nosniff")])] } := by
  decide

/-! ## corsMiddleware -/

/-- C6: an OPTIONS request, whatever its path and whatever handler is wrapped,
is answered by the CORS middleware with status 200, an empty body and the three
Access-Control headers; the reply does not depend on the wrapped handler, which
is not run, and no call is made upstream. -/
theorem cors_options_short_circuit (ca : ChatApp) (next : Handler) (r : Request)
    (h : r.method = lit "OPTIONS") :
    corsMiddleware ca next r Exchange.fresh = Served.returned
      { w :=
          { header :=
              [(lit "Access-Control-Allow-Origin", lit "*"),
               (lit "Access-Control-Allow-Methods", lit "GET, POST, OPTIONS"),
               (lit "Access-Control-Allow-Headers", lit "Content-Type")],
            status := some 200,
            sent :=
              [(lit "Access-Control-Allow-Origin", lit "*"),
               (lit "Access-Control-Allow-Methods", lit "GET, POST, OPTIONS"),
               (lit "Access-Control-Allow-Headers", lit "Content-Type")],
            body := [],
            flushed := 0 },
        calls := [] } := by
  simp only [corsMiddleware, h, if_true]
  rfl

theorem cors_options_short_circuit_witness :
    corsMiddleware chatApp (receiveHandler chatApp unreachable)
        { method := lit "OPTIONS", path := lit "/receive", rawQuery := lit "topic=a",
          body := some [] } Exchange.fresh
      = Served.returned
      { w :=
          { header :=
              [(lit "Access-Control-Allow-Origin", lit "*"),
               (lit "Access-Control-Allow-Methods", lit "GET, POST, OPTIONS"),
               (lit "Access-Control-Allow-Headers", lit "Content-Type")],
            status := some 200,
            sent :=
              [(lit "Access-Control-Allow-Origin", lit "*"),
               (lit "Access-Control-Allow-Methods", lit "GET, POST, OPTIONS"),
               (lit "Access-Control-Allow-Headers", lit "Content-Type")],
            body := [],
            flushed := 0 },
        calls := [] } :=
  cors_options_short_circuit chatApp (receiveHandler chatApp unreachable)
    { method := lit "OPTIONS", path := lit "/receive", rawQuery := lit "topic=a",
      body := some [] } rfl

/-! ## receiveHandler: the replies without a stream -/

/-- C3: a request to /receive that is not OPTIONS and whose topic is missing or
empty (`Query().Get("topic")` is the empty string) is answered with status 400
and the plain-text line "Missing topic"; no call is made upstream and neither
the event-stream header nor a data record is written. -/
theorem receive_missing_topic (ca : ChatApp) (up : Upstream) (r : Request) (x : Exchange)
    (hm : r.method ≠ lit "OPTIONS")
    (ht : Values.Get (Query r.rawQuery) (lit "topic") = [])
    (hw : x.w.status = none) :
    ∃ w1 : ResponseWriter,
      receiveHandler ca up r x = Served.returned { w := w1, calls := x.calls } ∧
      w1.status = some 400 ∧
      w1.body = x.w.body ++ lit "Missing topic\n" ∧
      w1.sent = (x.w.header.set (lit "Content-Type") (lit "text/plain; charset=utf-8")).set
        (lit "X-Content-Type-Options") (lit "nosniff") := by
  obtain ⟨w1, he, hs, hbd, hsent⟩ := httpError_final x.w (lit "Missing topic")
    StatusBadRequest hw (by decide) (by decide) (by decide)
  refine ⟨w1, ?_, hs, ?_, hsent⟩
  · simp only [receiveHandler, hm, ht, if_false, if_true, he, Served.after]
  · rw [hbd]; rfl

theorem receive_missing_topic_witness :
    ∃ w1 : ResponseWriter,
      receiveHandler chatApp unreachable
          { method := lit "GET", path := lit "/receive", rawQuery := lit "topic=",
            body := some [] } Exchange.fresh
        = Served.returned { w := w1, calls := Exchange.fresh.calls } ∧
      w1.status = some 400 ∧
      w1.body = Exchange.fresh.w.body ++ lit "Missing topic\n" ∧
      w1.sent =
        (Exchange.fresh.w.header.set (lit "Content-Type")
          (lit "text/plain; charset=utf-8")).set
          (lit "X-Content-Type-Options") (lit "nosniff") :=
  receive_missing_topic chatApp unreachable
    { method := lit "GET", path := lit "/receive", rawQuery := lit "topic=",
      body := some [] } Exchange.fresh (by decide) (by decide) rfl

/-- C8, as the code has it: when the upstream GET of a subscribe request with a
non-empty topic fails, the client is answered with status 500 and the
plain-text line "Failed to subscribe to topic", after the one GET. -/
theorem receive_upstream_unreachable (ca : ChatApp) (up : Upstream) (r : Request)
    (x : Exchange)
    (hm : r.method ≠ lit "OPTIONS")
    (ht : Values.Get (Query r.rawQuery) (lit "topic") ≠ [])
    (hget : up.get (subURL ca (Values.Get (Query r.rawQuery) (lit "topic"))) = none)
    (hw : x.w.status = none) :
    ∃ w1 : ResponseWriter,
      receiveHandler ca up r x = Served.returned
        { w := w1,
          calls := x.calls ++
            [Call.get (subURL ca (Values.Get (Query r.rawQuery) (lit "topic")))] } ∧
      w1.status = some 500 ∧
      w1.body = x.w.body ++ lit "Failed to subscribe to topic\n" := by
  obtain ⟨w1, he, hs, hbd, _⟩ := httpError_final
    (((x.w.setHeader (lit "Content-Type") (lit "text/event-stream")).setHeader
      (lit "Cache-Control") (lit "no-cache")).setHeader (lit "Connection") (lit "keep-alive"))
    (lit "Failed to subscribe to topic") StatusInternalServerError (by simp [hw])
    (by decide) (by decide) (by decide)
  refine ⟨w1, ?_, hs, ?_⟩
  · simp only [receiveHandler, hm, ht, hget, if_false, he, Served.after]
  · rw [hbd]; rfl

theorem receive_upstream_unreachable_witness :
    ∃ w1 : ResponseWriter,
      receiveHandler chatApp unreachable
          { method := lit "GET", path := lit "/receive", rawQuery := lit "topic=a",
            body := some [] } Exchange.fresh
        = Served.returned
        { w := w1,
          calls := Exchange.fresh.calls ++
            [Call.get (subURL chatApp (Values.Get (Query (lit "topic=a")) (lit "topic")))] } ∧
      w1.status = some 500 ∧
      w1.body = Exchange.fresh.w.body ++ lit "Failed to subscribe to topic\n" :=
  receive_upstream_unreachable chatApp unreachable
    { method := lit "GET", path := lit "/receive", rawQuery := lit "topic=a",
      body := some [] } Exchange.fresh (by decide) (by decide) rfl rfl

/-- C8 as stated fails: for GET /receive?topic=a with the pub/sub service out of
reach the handler returns, the client gets status 500 and the body
"Failed to subscribe to topic" followed by a newline. -/
theorem receive_unreachable_not_silent :
    receiveHandler chatApp unreachable
        { method := lit "GET", path := lit "/receive", rawQuery := lit "topic=a",
          body := some [] } Exchange.fresh
      = Served.returned
        { w :=
            { header :=
                [(lit "Content-Type", lit "text/plain; charset=utf-8"),
                 (lit "Cache-Control", lit "no-cache"),
                 (lit "Connection", lit "keep-alive"),
                 (lit "X-Content-Type-Options", lit "nosniff")],
              status := some 500,
              sent :=
                [(lit "Content-Type", lit "text/plain; charset=utf-8"),
                 (lit "Cache-Control", lit "no-cache"),
                 (lit "Connection", lit "keep-alive"),
                 (lit "X-Content-Type-Options", lit "nosniff")],
              body := lit "Failed to subscribe to topic\n",
              flushed := 0 },
          calls := [Call.get (lit "http://localhost:8080/subscribe?topic=a")] } := by
  decide

/-! ## receiveHandler: the relay loop -/

theorem relayStep_body (w : ResponseWriter) (r : ReadResult) :
    (relayStep w r).body = w.body ++ (if 0 < r.data.length then record r.data else []) := by
  unfold relayStep
  split <;> simp

theorem relaySoFar_body (reads : List ReadResult) (w : ResponseWriter) :
    (relaySoFar reads w).body =
      w.body ++ (reads.filter (fun r => 0 < r.data.length)).flatMap (fun r => record r.data) := by
  induction reads generalizing w with
  | nil => simp [relaySoFar]
  | cons r rest ih =>
    have h := ih (relayStep w r)
    simp only [relaySoFar, List.foldl_cons] at h ⊢
    rw [h, relayStep_body]
    by_cases hr : 0 < r.data.length <;> simp [List.filter_cons, hr]

theorem relayLoop_ends (pre : List ReadResult) (last : ReadResult) (w : ResponseWriter)
    (hpre : ∀ p ∈ pre, p.err = false) (hlast : last.err = true) :
    relayLoop (pre ++ [last]) w = some (relaySoFar (pre ++ [last]) w) := by
  induction pre generalizing w with
  | nil => simp [relayLoop, relaySoFar, hlast]
  | cons r rest ih =>
    have hr : r.err = false := hpre r (List.mem_cons_self _ _)
    have h := ih (relayStep w r) (fun p hp => hpre p (List.mem_cons_of_mem _ hp))
    simp only [List.cons_append, relayLoop, hr, relaySoFar, List.foldl_cons] at h ⊢
    simpa using h

/-- C1: for a subscribe request with a non-empty topic whose upstream reads are
`pre` without an error followed by `last` with one, the relay loop ends and the
bytes written to the client are, after what was there, the records
"data: " ++ chunk ++ "\n\n" of the reads with n > 0, the last one included, in
the order of the reads, one record per read; a read of no byte adds nothing. -/
theorem relay_framing (ca : ChatApp) (up : Upstream) (r : Request) (x : Exchange)
    (pre : List ReadResult) (last : ReadResult)
    (hm : r.method ≠ lit "OPTIONS")
    (ht : Values.Get (Query r.rawQuery) (lit "topic") ≠ [])
    (hget : up.get (subURL ca (Values.Get (Query r.rawQuery) (lit "topic")))
      = some (pre ++ [last]))
    (hpre : ∀ p ∈ pre, p.err = false) (hlast : last.err = true) :
    ∃ w1 : ResponseWriter,
      receiveHandler ca up r x = Served.awaiting
        { w := w1,
          calls := x.calls ++
            [Call.get (subURL ca (Values.Get (Query r.rawQuery) (lit "topic")))] } ∧
      w1.body = x.w.body ++
        ((pre ++ [last]).filter (fun p => 0 < p.data.length)).flatMap
          (fun p => lit "data: " ++ p.data ++ lit "\n\n") := by
  refine ⟨relaySoFar (pre ++ [last])
    (((x.w.setHeader (lit "Content-Type") (lit "text/event-stream")).setHeader
      (lit "Cache-Control") (lit "no-cache")).setHeader (lit "Connection") (lit "keep-alive")),
    ?_, ?_⟩
  · simp only [receiveHandler, hm, ht, hget, if_false, relayLoop_ends pre last _ hpre hlast]
  · rw [relaySoFar_body]
    rfl

theorem relay_framing_witness :
    ∃ w1 : ResponseWriter,
      receiveHandler chatApp chatty
          { method := lit "GET", path := lit "/receive", rawQuery := lit "topic=a",
            body := some [] } Exchange.fresh
        = Served.awaiting
        { w := w1,
          calls := Exchange.fresh.calls ++
            [Call.get (subURL chatApp (Values.Get (Query (lit "topic=a")) (lit "topic")))] } ∧
      w1.body = Exchange.fresh.w.body ++
        (([ReadResult.mk (lit "hi") false, ReadResult.mk [] false] ++
            [ReadResult.mk (lit "yo") true]).filter
          (fun p => 0 < p.data.length)).flatMap
          (fun p => lit "data: " ++ p.data ++ lit "\n\n") :=
  relay_framing chatApp chatty
    { method := lit "GET", path := lit "/receive", rawQuery := lit "topic=a",
      body := some [] } Exchange.fresh
    [ReadResult.mk (lit "hi") false, ReadResult.mk [] false]
    (ReadResult.mk (lit "yo") true) (by decide) (by decide) rfl (by decide) rfl

/-! ## receiveHandler: the URL of the upstream GET -/

theorem cut_of_not_mem (sep : Nat) (s : GoString) (h : sep ∉ s) : cut sep s = (s, none) := by
  induction s with
  | nil => rfl
  | cons c rest ih =>
    have hc : c ≠ sep := fun e => h (e ▸ List.mem_cons_self _ _)
    have hrest : sep ∉ rest := fun m => h (List.mem_cons_of_mem _ m)
    simp [cut, hc, ih hrest]

theorem cut_append_sep (sep : Nat) (a b : GoString) (h : sep ∉ a) :
    cut sep (a ++ sep :: b) = (a, some b) := by
  induction a with
  | nil => simp [cut]
  | cons c rest ih =>
    have hc : c ≠ sep := fun e => h (e ▸ List.mem_cons_self _ _)
    have hrest : sep ∉ rest := fun m => h (List.mem_cons_of_mem _ m)
    simp [cut, hc, ih hrest]

theorem QueryUnescape_plain (s : GoString) (h : ∀ c ∈ s, c ≠ ch '%' ∧ c ≠ ch '+') :
    QueryUnescape s = some s := by
  induction s with
  | nil => rfl
  | cons c rest ih =>
    have hc := h c (List.mem_cons_self _ _)
    have hrest := ih (fun d hd => h d (List.mem_cons_of_mem _ hd))
    unfold QueryUnescape
    simp [hc.1, hc.2, hrest]

/-- The topic is read back from the URL of the upstream GET when it has none of
the bytes `&`, `;`, `#`, `%`, `+` (and the base URL has no `?` or `#`). -/
theorem upstreamTopic_plain (base topic : GoString)
    (hq : ch '?' ∉ base) (hf : ch '#' ∉ base)
    (hu : ∀ c ∈ topic,
      c ≠ ch '&' ∧ c ≠ ch ';' ∧ c ≠ ch '#' ∧ c ≠ ch '%' ∧ c ≠ ch '+') :
    upstreamTopic (base ++ lit "/subscribe?topic=" ++ topic) = topic := by
  have hlit : lit "/subscribe?topic=" = lit "/subscribe" ++ ch '?' :: lit "topic=" := by decide
  have hno : ∀ sep : Nat, (∀ c ∈ topic, c ≠ sep) → sep ∉ topic := fun sep h m => h sep m rfl
  have h1 : cut (ch '#') (base ++ lit "/subscribe?topic=" ++ topic)
      = (base ++ lit "/subscribe?topic=" ++ topic, none) := by
    apply cut_of_not_mem
    simp only [List.mem_append, not_or]
    exact ⟨⟨hf, by decide⟩, hno _ (fun c hc => (hu c hc).2.2.1)⟩
  have h2 : cut (ch '?') (base ++ lit "/subscribe?topic=" ++ topic)
      = (base ++ lit "/subscribe", some (lit "topic=" ++ topic)) := by
    rw [hlit]
    have := cut_append_sep (ch '?') (base ++ lit "/subscribe") (lit "topic=" ++ topic)
      (by simp only [List.mem_append, not_or]; exact ⟨hq, by decide⟩)
    simpa using this
  have h3 : cut (ch '&') (lit "topic=" ++ topic) = (lit "topic=" ++ topic, none) := by
    apply cut_of_not_mem
    simp only [List.mem_append, not_or]
    exact ⟨by decide, hno _ (fun c hc => (hu c hc).1)⟩
  have h4 : ch ';' ∉ lit "topic=" ++ topic := by
    simp only [List.mem_append, not_or]
    exact ⟨by decide, hno _ (fun c hc => (hu c hc).2.1)⟩
  have h5 : cut (ch '=') (lit "topic=" ++ topic) = (lit "topic", some topic) := by
    have : lit "topic=" ++ topic = lit "topic" ++ ch '=' :: topic := by
      have : lit "topic=" = lit "topic" ++ [ch '='] := by decide
      rw [this]; simp
    rw [this]
    exact cut_append_sep _ _ _ (by decide)
  have h6 : QueryUnescape topic = some topic :=
    QueryUnescape_plain topic (fun c hc => ⟨(hu c hc).2.2.2.1, (hu c hc).2.2.2.2⟩)
  have h7 : QueryUnescape (lit "topic") = some (lit "topic") := by decide
  have h8 : lit "topic=" ++ topic ≠ [] := by
    have : lit "topic=" = ch 't' :: lit "opic=" := by decide
    rw [this]; simp
  obtain ⟨n, hn⟩ : ∃ n, (lit "topic=" ++ topic).length = n + 1 :=
    Nat.exists_eq_succ_of_ne_zero (by simpa using h8)
  have h9 : ∀ fuel, parseQuery fuel [] = [] := by
    intro fuel; cases fuel <;> simp [parseQuery]
  unfold upstreamTopic rawQueryOf Query
  rw [h1]
  simp only [h2, Option.getD_some]
  rw [hn]
  simp only [parseQuery, h8, h3, h4, h5, h6, h7, h9, if_false, Option.getD_none,
    Option.getD_some]
  simp [Values.Get]

/-- The one upstream call of a subscribe request with a non-empty topic t is a GET
of exactly b ++ "/subscribe?topic=" ++ t, with t as decoded and not escaped
again. -/
theorem subscribe_url_verbatim (ca : ChatApp) (up : Upstream) (r : Request) (x : Exchange)
    (hm : r.method ≠ lit "OPTIONS")
    (ht : Values.Get (Query r.rawQuery) (lit "topic") ≠ []) :
    (receiveHandler ca up r x).exchange.calls = x.calls ++
        [Call.get (ca.pubsubURL ++ lit "/subscribe?topic=" ++
          Values.Get (Query r.rawQuery) (lit "topic"))] := by
  simp only [receiveHandler, hm, ht, if_false]
  cases up.get (subURL ca (Values.Get (Query r.rawQuery) (lit "topic"))) with
  | none =>
    simp only []
    cases httpError
      (((x.w.setHeader (lit "Content-Type") (lit "text/event-stream")).setHeader
        (lit "Cache-Control") (lit "no-cache")).setHeader (lit "Connection") (lit "keep-alive"))
      (lit "Failed to subscribe to topic") StatusInternalServerError <;> rfl
  | some reads =>
    cases hl : relayLoop reads
      (((x.w.setHeader (lit "Content-Type") (lit "text/event-stream")).setHeader
        (lit "Cache-Control") (lit "no-cache")).setHeader (lit "Connection") (lit "keep-alive"))
      <;> simp [hl, Served.exchange, subURL]

/-- C10, at the request GET /receive?topic=a%26b: its topic is "a&b", the URL
asked upstream is http://localhost:8080/subscribe?topic=a&b with the topic not
escaped, and the topic read from that URL is "a", not "a&b"; read from the URL
with the topic escaped it is "a&b". -/
theorem subscribe_topic_not_preserved :
    Values.Get (Query (lit "topic=a%26b")) (lit "topic") = lit "a&b" ∧
      (receiveHandler chatApp chatty
        { method := lit "GET", path := lit "/receive", rawQuery := lit "topic=a%26b",
          body := some [] } Exchange.fresh).exchange.calls
        = [Call.get (lit "http://localhost:8080/subscribe?topic=a&b")] ∧
      upstreamTopic (lit "http://localhost:8080/subscribe?topic=a&b") = lit "a" ∧
      lit "a" ≠ lit "a&b" ∧
      upstreamTopic (lit "http://localhost:8080/subscribe?topic=a%26b") = lit "a&b" := by
  decide

/-! ## The subscription session -/

theorem Session.inv_start (w : ResponseWriter) : (Session.start w).Inv := by
  simp [Session.Inv, Session.start]

theorem Session.inv_step (s t : Session) (e : Event) (hs : s.Inv) (h : s.step e = some t) :
    t.Inv := by
  obtain ⟨h1, h2, h3, h4, h5, h6⟩ := hs
  cases e with
  | read r =>
    cases hm : s.main <;> simp [Session.step, hm] at h
    subst h
    refine ⟨h1, h2, h3, h4, h5, ?_⟩
    cases r.err <;> simp
  | disconnect =>
    by_cases hg : s.gone = true
    · simp [Session.step, hg] at h
    · simp [Session.step, hg] at h
      subst h
      cases hw : s.watcher
      · have := h1 hw; simp_all [Session.Inv]
      · have := h2 hw; simp_all [Session.Inv]
      · have := h3 hw; simp_all [Session.Inv]
      · have := h4 hw; simp_all [Session.Inv]
  | watcher =>
    cases hw : s.watcher
    · by_cases hn : s.notify = true
      · simp [Session.step, hw, hn] at h
        subst h
        have := h1 hw
        have := h5 hn
        have hd : s.main = MainPC.done → False := fun hd => by
          have := h6 hd; omega
        simp_all [Session.Inv]
      · simp [Session.step, hw, hn] at h
    · simp [Session.step, hw] at h
      subst h
      have := h2 hw
      have hd : s.main = MainPC.done → False := fun hd => by
        have := h6 hd; omega
      simp_all [Session.Inv]
    · simp [Session.step, hw] at h
      subst h
      have := h3 hw
      simp_all [Session.Inv]
    · simp [Session.step, hw] at h
  | wait =>
    cases hm : s.main <;> simp [Session.step, hm] at h
    obtain ⟨hz, rfl⟩ := h
    exact ⟨h1, h2, h3, h4, h5, fun _ => hz⟩

theorem Session.inv_run (evs : List Event) (s t : Session) (hs : s.Inv)
    (h : s.run evs = some t) : t.Inv := by
  induction evs generalizing s with
  | nil =>
    simp [Session.run] at h
    exact h ▸ hs
  | cons e es ih =>
    cases hst : s.step e with
    | none => simp [Session.run, hst] at h
    | some s1 =>
      simp only [Session.run, hst] at h
      exact ih s1 (Session.inv_step s s1 e hs hst) h

/-- C7, as the code has it: in every execution of a subscription session the
upstream body is closed at most once, by the watcher alone (it is closed exactly
when the watcher is past its `Close`), and only after the client-disconnect
signal; the handler returns only when the watcher has finished, so at handler
return the body has been closed exactly once. -/
theorem session_close_once (w : ResponseWriter) (evs : List Event) (s : Session)
    (h : (Session.start w).run evs = some s) :
    s.closes ≤ 1 ∧
      (s.closes = 1 ↔ s.watcher = WatcherPC.signal ∨ s.watcher = WatcherPC.exit) ∧
      (s.closes = 1 → s.gone = true) ∧
      (s.main = MainPC.done → s.watcher = WatcherPC.exit ∧ s.closes = 1) := by
  obtain ⟨h1, h2, h3, h4, _, h6⟩ := Session.inv_run evs _ s (Session.inv_start w) h
  cases hw : s.watcher
  · have := h1 hw
    refine ⟨by omega, by simp; omega, by omega, fun hd => ?_⟩
    have := h6 hd; omega
  · have := h2 hw
    refine ⟨by omega, by simp; omega, by omega, fun hd => ?_⟩
    have := h6 hd; omega
  · have := h3 hw
    refine ⟨by omega, by simp; omega, fun _ => this.2.2.1, fun hd => ?_⟩
    have := h6 hd; omega
  · have := h4 hw
    exact ⟨by omega, by simp; omega, fun _ => this.2.2.1, fun _ => ⟨rfl, this.1⟩⟩

theorem session_close_once_witness :
    (Session.start ResponseWriter.fresh).run oneChunkSession = some oneChunkEnd ∧
      oneChunkEnd.closes ≤ 1 ∧
      (oneChunkEnd.closes = 1 ↔
        oneChunkEnd.watcher = WatcherPC.signal ∨ oneChunkEnd.watcher = WatcherPC.exit) ∧
      (oneChunkEnd.closes = 1 → oneChunkEnd.gone = true) ∧
      (oneChunkEnd.main = MainPC.done →
        oneChunkEnd.watcher = WatcherPC.exit ∧ oneChunkEnd.closes = 1) :=
  ⟨by decide,
    session_close_once ResponseWriter.fresh oneChunkSession oneChunkEnd (by decide)⟩

/-- C7 as stated fails: when the relay loop ends first (the first read returns
the end of the stream) the body is not closed by it; the session stands with the
main goroutine in `wg.Wait()`, the body open, and no step other than the client
going away can happen, so without a disconnect the body is never closed and
the handler never returns. -/
theorem loop_end_does_not_close :
    (Session.start ResponseWriter.fresh).run [Event.read (ReadResult.mk [] true)]
        = some streamEnded ∧
      streamEnded.main = MainPC.wait ∧ streamEnded.closes = 0 ∧
      ∀ e : Event, e ≠ Event.disconnect → streamEnded.step e = none := by
  refine ⟨by decide, rfl, rfl, ?_⟩
  intro e he
  cases e with
  | read r => rfl
  | disconnect => exact absurd rfl he
  | watcher => rfl
  | wait => rfl

/-! ## unicode/utf8: encoding and decoding agree -/

theorem DecodeRune_two (b0 b1 : Nat) (rest : List Nat) (h0 : 0xC2 ≤ b0 ∧ b0 ≤ 0xDF)
    (h1 : 0x80 ≤ b1 ∧ b1 ≤ 0xBF) :
    DecodeRune (b0 :: b1 :: rest) = (b0 % 32 * 64 + b1 % 64, 2) := by
  have hl : acceptLo b0 ≤ b1 := by unfold acceptLo; split_ifs <;> omega
  have hh : b1 ≤ acceptHi b0 := by unfold acceptHi; split_ifs <;> omega
  simp only [DecodeRune]
  generalize acceptLo b0 = lo at *
  generalize acceptHi b0 = hi at *
  split_ifs <;> first | omega | exact rfl

theorem DecodeRune_three (b0 b1 b2 : Nat) (rest : List Nat) (h0 : 0xE0 ≤ b0 ∧ b0 ≤ 0xEF)
    (h1 : 0x80 ≤ b1 ∧ b1 ≤ 0xBF) (h2 : 0x80 ≤ b2 ∧ b2 ≤ 0xBF)
    (hlo : b0 = 0xE0 → 0xA0 ≤ b1) (hhi : b0 = 0xED → b1 ≤ 0x9F) :
    DecodeRune (b0 :: b1 :: b2 :: rest) = (b0 % 16 * 4096 + b1 % 64 * 64 + b2 % 64, 3) := by
  have hl : acceptLo b0 ≤ b1 := by unfold acceptLo; split_ifs <;> omega
  have hh : b1 ≤ acceptHi b0 := by unfold acceptHi; split_ifs <;> omega
  simp only [DecodeRune]
  generalize acceptLo b0 = lo at *
  generalize acceptHi b0 = hi at *
  split_ifs <;> first | omega | exact rfl

theorem DecodeRune_four (b0 b1 b2 b3 : Nat) (rest : List Nat) (h0 : 0xF0 ≤ b0 ∧ b0 ≤ 0xF4)
    (h1 : 0x80 ≤ b1 ∧ b1 ≤ 0xBF) (h2 : 0x80 ≤ b2 ∧ b2 ≤ 0xBF) (h3 : 0x80 ≤ b3 ∧ b3 ≤ 0xBF)
    (hlo : b0 = 0xF0 → 0x90 ≤ b1) (hhi : b0 = 0xF4 → b1 ≤ 0x8F) :
    DecodeRune (b0 :: b1 :: b2 :: b3 :: rest)
      = (b0 % 8 * 262144 + b1 % 64 * 4096 + b2 % 64 * 64 + b3 % 64, 4) := by
  have hl : acceptLo b0 ≤ b1 := by unfold acceptLo; split_ifs <;> omega
  have hh : b1 ≤ acceptHi b0 := by unfold acceptHi; split_ifs <;> omega
  simp only [DecodeRune]
  generalize acceptLo b0 = lo at *
  generalize acceptHi b0 = hi at *
  split_ifs <;> first | omega | exact rfl

theorem DecodeRune_encodeRune (c : Nat) (rest : List Nat) (h : Scalar c) :
    DecodeRune (encodeRune c ++ rest) = (c, (encodeRune c).length) := by
  unfold Scalar at h
  unfold encodeRune
  split_ifs with h1 h2 h3 h4
  · simp [DecodeRune, h1]
  · rw [List.cons_append, List.cons_append, List.nil_append,
      DecodeRune_two _ _ _ (by omega) (by omega)]
    simp; omega
  · omega
  · rw [List.cons_append, List.cons_append, List.cons_append, List.nil_append,
      DecodeRune_three _ _ _ _ (by omega) (by omega) (by omega) (by omega) (by omega)]
    simp; omega
  · rw [List.cons_append, List.cons_append, List.cons_append, List.cons_append, List.nil_append,
      DecodeRune_four _ _ _ _ _ (by omega) (by omega) (by omega) (by omega) (by omega) (by omega)]
    simp; omega

theorem accept_bounds (b0 : Nat) :
    0x80 ≤ acceptLo b0 ∧ acceptHi b0 ≤ 0xBF ∧ (b0 = 0xED → acceptHi b0 = 0x9F) ∧
      (b0 = 0xF4 → acceptHi b0 = 0x8F) ∧ (b0 = 0xF0 → acceptLo b0 = 0x90) ∧
      (b0 = 0xE0 → acceptLo b0 = 0xA0) := by
  unfold acceptLo acceptHi
  split_ifs <;> omega

theorem DecodeRune_scalar (p : List Nat) : Scalar (DecodeRune p).1 := by
  unfold Scalar
  match p with
  | [] => simp [DecodeRune, RuneError]
  | [b0] =>
    simp only [DecodeRune, RuneError]
    split_ifs <;> simp
    omega
  | [b0, b1] =>
    obtain ⟨a1, a2, a3, a4, a5, a6⟩ := accept_bounds b0
    simp only [DecodeRune, RuneError]
    generalize acceptLo b0 = lo at *
    generalize acceptHi b0 = hi at *
    split_ifs <;> simp <;> omega
  | [b0, b1, b2] =>
    obtain ⟨a1, a2, a3, a4, a5, a6⟩ := accept_bounds b0
    simp only [DecodeRune, RuneError]
    generalize acceptLo b0 = lo at *
    generalize acceptHi b0 = hi at *
    split_ifs <;> simp <;> omega
  | b0 :: b1 :: b2 :: b3 :: rest =>
    obtain ⟨a1, a2, a3, a4, a5, a6⟩ := accept_bounds b0
    simp only [DecodeRune, RuneError]
    generalize acceptLo b0 = lo at *
    generalize acceptHi b0 = hi at *
    split_ifs <;> simp <;> omega

theorem DecodeRune_width (p : List Nat) :
    (DecodeRune p).2 ≤ p.length ∧ (p ≠ [] → 1 ≤ (DecodeRune p).2) := by
  match p with
  | [] => simp [DecodeRune, RuneError]
  | [b0] =>
    simp only [DecodeRune]
    split_ifs <;> simp
  | [b0, b1] =>
    simp only [DecodeRune]
    split_ifs <;> simp
  | [b0, b1, b2] =>
    simp only [DecodeRune]
    split_ifs <;> simp
  | b0 :: b1 :: b2 :: b3 :: rest =>
    simp only [DecodeRune]
    split_ifs <;> simp

theorem encodeRune_ne_nil (c : Nat) : encodeRune c ≠ [] := by
  unfold encodeRune
  split_ifs <;> simp

theorem encodeRune_head (c : Nat) (h : 0x80 ≤ c) :
    ∃ b tl, encodeRune c = b :: tl ∧ 0xC2 ≤ b ∧ tl ≠ [] := by
  unfold encodeRune
  split_ifs
  · omega
  · exact ⟨_, _, rfl, by omega, by simp⟩
  · exact ⟨_, _, rfl, by omega, by simp⟩
  · exact ⟨_, _, rfl, by omega, by simp⟩
  · exact ⟨_, _, rfl, by omega, by simp⟩

theorem runesFrom_skip (xs rest : GoString) :
    runesFrom xs.length (xs ++ rest) = runesFrom 0 rest := by
  induction xs with
  | nil => rfl
  | cons x xs ih => simpa [runesFrom] using ih

theorem runes_encodeRune (c : Nat) (rest : GoString) (h : Scalar c) :
    runes (encodeRune c ++ rest) = (c, encodeRune c) :: runes rest := by
  have hd := DecodeRune_encodeRune c rest h
  obtain ⟨b, tl, hb⟩ : ∃ b tl, encodeRune c = b :: tl := by
    cases he : encodeRune c with
    | nil => exact absurd he (encodeRune_ne_nil c)
    | cons b tl => exact ⟨b, tl, rfl⟩
  rw [hb] at hd ⊢
  rw [List.cons_append] at hd ⊢
  unfold runes
  rw [runesFrom, hd]
  simp only [List.length_cons, Nat.add_sub_cancel]
  rw [runesFrom_skip]
  congr 1
  simp [List.take_succ_cons]

theorem runes_flatMap (cs : List Nat) (h : ∀ c ∈ cs, Scalar c) :
    runes (cs.flatMap encodeRune) = cs.map (fun c => (c, encodeRune c)) := by
  induction cs with
  | nil => rfl
  | cons c cs ih =>
    rw [List.flatMap_cons, runes_encodeRune c _ (h c (List.mem_cons_self _ _)),
      ih (fun d hd => h d (List.mem_cons_of_mem _ hd))]
    rfl

theorem appendString_flatMap (cs : List Nat) (h : ∀ c ∈ cs, Scalar c) :
    appendString (cs.flatMap encodeRune)
      = [ch '"'] ++ cs.flatMap (fun c => escapeRune c (encodeRune c)) ++ [ch '"'] := by
  unfold appendString
  rw [runes_flatMap cs h, List.flatMap_map]

theorem readStringFrom_skip (xs rest : List Nat) :
    readStringFrom xs.length (xs ++ rest) = readStringFrom 0 rest := by
  induction xs with
  | nil => rfl
  | cons x xs ih => simpa [readStringFrom] using ih

theorem stringItem_escape_ascii (c : Nat) (rest : List Nat) (h : c < 0x80) :
    stringItem (escapeRune c [c] ++ rest) = StringItem.item [c] (escapeRune c [c]).length := by
  interval_cases c <;> rfl

theorem encodeRune_ascii (c : Nat) (h : c < 0x80) : encodeRune c = [c] := by
  simp [encodeRune, h]

theorem encodeRune_length (c : Nat) (h : 0x80 ≤ c) : 2 ≤ (encodeRune c).length := by
  unfold encodeRune
  split_ifs <;> simp
  omega

theorem stringItem_escape (c : Nat) (rest : List Nat) (h : Scalar c) :
    stringItem (escapeRune c (encodeRune c) ++ rest)
      = StringItem.item (encodeRune c) (escapeRune c (encodeRune c)).length := by
  by_cases hc : c < 0x80
  · rw [encodeRune_ascii c hc]
    exact stringItem_escape_ascii c rest hc
  · have hlen := encodeRune_length c (by omega)
    by_cases h28 : c = 0x2028
    · subst h28; rfl
    by_cases h29 : c = 0x2029
    · subst h29; rfl
    have hraw : escapeRune c (encodeRune c) = encodeRune c := by
      unfold escapeRune
      rw [if_neg (by omega), if_neg (by omega), if_neg (by omega)]
    rw [hraw]
    have hd := DecodeRune_encodeRune c rest h
    obtain ⟨b, tl, hb, hb2, _⟩ := encodeRune_head c (by omega)
    rw [hb] at hd ⊢
    rw [List.cons_append] at hd ⊢
    have e1 : ch '"' = 34 := rfl
    have e2 : ch '\\' = 92 := rfl
    simp only [stringItem, e1, e2]
    rw [if_neg (by omega), if_neg (by omega), if_neg (by omega), if_neg (by omega), hd]
    simp only [hb]

theorem escapeRune_ne_nil (c : Nat) : escapeRune c (encodeRune c) ≠ [] := by
  unfold escapeRune
  split_ifs <;> simp [lit, encodeRune_ne_nil]

theorem readString_escaped (cs : List Nat) (rest : List Nat) (h : ∀ c ∈ cs, Scalar c) :
    readStringFrom 0 (cs.flatMap (fun c => escapeRune c (encodeRune c)) ++ ch '"' :: rest)
      = some (cs.flatMap encodeRune, rest) := by
  induction cs with
  | nil => rfl
  | cons c cs ih =>
    have hi := ih (fun d hd => h d (List.mem_cons_of_mem _ hd))
    have hs := stringItem_escape c
      (cs.flatMap (fun c => escapeRune c (encodeRune c)) ++ ch '"' :: rest)
      (h c (List.mem_cons_self _ _))
    rw [List.flatMap_cons, List.flatMap_cons, List.append_assoc]
    cases he : escapeRune c (encodeRune c) with
    | nil => exact absurd he (escapeRune_ne_nil c)
    | cons e0 etl =>
      rw [he] at hs
      rw [List.cons_append] at hs ⊢
      rw [readStringFrom, hs]
      simp only [List.length_cons, Nat.add_sub_cancel]
      rw [readStringFrom_skip, hi]

theorem appendString_read (s : GoString) (rest : List Nat) (h : Valid s) :
    ∃ tl, appendString s ++ rest = ch '"' :: tl ∧ readString tl = some (s, rest) := by
  obtain ⟨cs, hcs, rfl⟩ := h
  refine ⟨cs.flatMap (fun c => escapeRune c (encodeRune c)) ++ ch '"' :: rest, ?_, ?_⟩
  · rw [appendString_flatMap cs hcs]; simp
  · exact readString_escaped cs rest hcs

theorem unhex_lt (c : Nat) : unhex c < 16 := by
  have e : ch '0' = 48 ∧ ch '9' = 57 ∧ ch 'a' = 97 ∧ ch 'f' = 102 ∧ ch 'A' = 65 ∧ ch 'F' = 70 := by
    decide
  obtain ⟨e1, e2, e3, e4, e5, e6⟩ := e
  unfold unhex
  rw [e1, e2, e3, e4, e5, e6]
  split_ifs <;> omega

theorem hex4_lt (a b c d : Nat) : hex4 a b c d < 0x10000 := by
  have := unhex_lt a
  have := unhex_lt b
  have := unhex_lt c
  have := unhex_lt d
  unfold hex4
  omega

theorem getu4_lt (p : List Nat) (r : Nat) (h : getu4 p = some r) : r < 0x10000 := by
  unfold getu4 at h
  split at h
  · split_ifs at h
    simp only [Option.some.injEq] at h
    exact h ▸ hex4_lt _ _ _ _
  · exact absurd h (by simp)

theorem unescapeByte_lt (e b : Nat) (h : unescapeByte e = some b) : b < 0x80 := by
  have e1 : ch '"' = 34 ∧ ch '\\' = 92 ∧ ch '/' = 47 ∧ ch '\n' = 10 ∧ ch '\r' = 13 ∧
      ch '\t' = 9 := by decide
  obtain ⟨e1, e2, e3, e4, e5, e6⟩ := e1
  unfold unescapeByte at h
  rw [e1, e2, e3, e4, e5, e6] at h
  split_ifs at h <;> simp only [Option.some.injEq] at h <;> omega

theorem stringItem_scalar (input : List Nat) (out : GoString) (w : Nat)
    (h : stringItem input = StringItem.item out w) : ∃ c, Scalar c ∧ out = encodeRune c := by
  unfold stringItem at h
  split at h
  · exact absurd h (by simp)
  · rename_i c rest
    split_ifs at h with h1 h2 h3 h4
    · split at h
      · exact absurd h (by simp)
      · split_ifs at h
        · split at h
          · exact absurd h (by simp)
          · rename_i rr hrr
            have hlt := getu4_lt _ _ hrr
            split_ifs at h with hs
            · split at h
              · rename_i rr1 hrr1
                have hlt1 := getu4_lt _ _ hrr1
                split_ifs at h with hp
                · simp only [StringItem.item.injEq] at h
                  exact ⟨_, Or.inr (by omega), h.1.symm⟩
                · simp only [StringItem.item.injEq] at h
                  exact ⟨RuneError, Or.inr (by decide), h.1.symm⟩
              · simp only [StringItem.item.injEq] at h
                exact ⟨RuneError, Or.inr (by decide), h.1.symm⟩
            · simp only [StringItem.item.injEq] at h
              refine ⟨rr, ?_, h.1.symm⟩
              unfold Scalar
              omega
        · split at h
          · rename_i b hb
            simp only [StringItem.item.injEq] at h
            have := unescapeByte_lt _ _ hb
            exact ⟨b, Or.inl (by omega), by rw [encodeRune_ascii b this]; exact h.1.symm⟩
          · exact absurd h (by simp)
    · simp only [StringItem.item.injEq] at h
      exact ⟨c, Or.inl (by omega), by rw [encodeRune_ascii c h4]; exact h.1.symm⟩
    · simp only [StringItem.item.injEq] at h
      exact ⟨_, DecodeRune_scalar _, h.1.symm⟩

theorem Valid_nil : Valid [] := ⟨[], by simp, rfl⟩

theorem Valid_cons (c : Nat) (s : GoString) (hc : Scalar c) (hs : Valid s) :
    Valid (encodeRune c ++ s) := by
  obtain ⟨cs, hcs, rfl⟩ := hs
  exact ⟨c :: cs, by simpa using And.intro hc hcs, by simp⟩

theorem readStringFrom_valid (input : List Nat) :
    ∀ (skip : Nat) (s : GoString) (rest : List Nat),
      readStringFrom skip input = some (s, rest) → Valid s := by
  induction input with
  | nil => intro skip s rest h; simp [readStringFrom] at h
  | cons c tl ih =>
    intro skip s rest h
    cases skip with
    | succ n => exact ih n s rest (by simpa [readStringFrom] using h)
    | zero =>
      rw [readStringFrom] at h
      split at h
      · simp only [Option.some.injEq, Prod.mk.injEq] at h
        exact h.1 ▸ Valid_nil
      · exact absurd h (by simp)
      · rename_i out width hitem
        split at h
        · rename_i s1 after hrec
          simp only [Option.some.injEq, Prod.mk.injEq] at h
          obtain ⟨c1, hc1, rfl⟩ := stringItem_scalar _ _ _ hitem
          exact h.1 ▸ Valid_cons c1 s1 hc1 (ih _ _ _ hrec)
        · exact absurd h (by simp)

theorem readString_valid (input : List Nat) (s : GoString) (rest : List Nat)
    (h : readString input = some (s, rest)) : Valid s :=
  readStringFrom_valid input 0 s rest h

theorem scanElems_other (fuel : Nat) :
    ∀ (d : Nat) (input : List Nat) (v : Val) (r : List Nat),
      scanElems fuel d input = some (v, r) → v = Val.other := by
  induction fuel with
  | zero => intro d input v r h; simp [scanElems] at h
  | succ n ih =>
    intro d input v r h
    rw [scanElems] at h
    split at h
    · exact absurd h (by simp)
    · split_ifs at h
      · simp only [Option.some.injEq, Prod.mk.injEq] at h
        exact h.1.symm
      · split at h
        · exact ih _ _ _ _ h
        · exact absurd h (by simp)

theorem scanValue_str (fuel d : Nat) (input : List Nat) (s : GoString) (r : List Nat)
    (h : scanValue fuel d input = some (Val.str s, r)) : Valid s := by
  cases fuel with
  | zero => simp [scanValue] at h
  | succ n =>
    rw [scanValue] at h
    split at h
    · exact absurd h (by simp)
    · split_ifs at h
      · split at h
        · exact absurd h (by simp)
        · split_ifs at h
          · simp at h
          · split at h <;> simp at h
      · split at h
        · exact absurd h (by simp)
        · split_ifs at h
          · simp at h
          · split at h
            · have := scanElems_other _ _ _ _ _ h
              simp at this
            · exact absurd h (by simp)
      · split at h
        · rename_i s1 after hs
          simp only [Option.some.injEq, Prod.mk.injEq, Val.str.injEq] at h
          exact h.1 ▸ readString_valid _ _ _ hs
        · exact absurd h (by simp)
      · split at h <;> simp at h
      · split at h <;> simp at h
      · split at h <;> simp at h
      · split at h <;> simp at h

theorem scanMembers_str (fuel : Nat) :
    ∀ (d : Nat) (input : List Nat) (kvs : List (GoString × Val)) (r : List Nat),
      scanMembers fuel d input = some (kvs, r) →
      ∀ k s, (k, Val.str s) ∈ kvs → Valid s := by
  induction fuel with
  | zero => intro d input kvs r h; simp [scanMembers] at h
  | succ n ih =>
    intro d input kvs r h k s hk
    rw [scanMembers] at h
    split at h
    · exact absurd h (by simp)
    · split_ifs at h
      split at h
      · exact absurd h (by simp)
      · split at h
        · exact absurd h (by simp)
        · split_ifs at h
          split at h
          · exact absurd h (by simp)
          · rename_i v rest3 hv
            split at h
            · exact absurd h (by simp)
            · split_ifs at h
              · simp only [Option.some.injEq, Prod.mk.injEq] at h
                rw [← h.1] at hk
                simp only [List.mem_singleton, Prod.mk.injEq] at hk
                exact scanValue_str _ _ _ _ _ (hk.2 ▸ hv)
              · split at h
                · rename_i more after hmore
                  simp only [Option.some.injEq, Prod.mk.injEq] at h
                  rw [← h.1] at hk
                  rcases List.mem_cons.mp hk with hk | hk
                  · simp only [Prod.mk.injEq] at hk
                    exact scanValue_str _ _ _ _ _ (hk.2 ▸ hv)
                  · exact ih _ _ _ _ hmore k s hk
                · exact absurd h (by simp)

theorem parseTop_str (data : GoString) (members : List (GoString × Val))
    (h : parseTop data = some (Top.obj members)) :
    ∀ k s, (k, Val.str s) ∈ members → Valid s := by
  unfold parseTop at h
  split at h
  · exact absurd h (by simp)
  · split_ifs at h
    · split at h
      · exact absurd h (by simp)
      · split_ifs at h
        · simp only [Option.some.injEq, Top.obj.injEq] at h
          subst h
          intro k s hk
          simp at hk
        · split at h
          · rename_i ms after hms
            split_ifs at h
            simp only [Option.some.injEq, Top.obj.injEq] at h
            subst h
            exact scanMembers_str _ _ _ _ _ hms
          · exact absurd h (by simp)
    · split at h <;> first | (split_ifs at h <;> simp at h) | simp at h

theorem storeMembers_valid (members : List (GoString × Val)) :
    ∀ (req out : PublishReq), (∀ k s, (k, Val.str s) ∈ members → Valid s) →
      Valid req.Topic → Valid req.Message → storeMembers members req = some out →
      Valid out.Topic ∧ Valid out.Message := by
  induction members with
  | nil =>
    intro req out _ ht hm h
    simp only [storeMembers, Option.some.injEq] at h
    exact h ▸ ⟨ht, hm⟩
  | cons kv more ih =>
    intro req out hv ht hm h
    obtain ⟨key, v⟩ := kv
    have hmore : ∀ k s, (k, Val.str s) ∈ more → Valid s :=
      fun k s hk => hv k s (List.mem_cons_of_mem _ hk)
    unfold storeMembers at h
    split at h
    · exact ih req out hmore ht hm h
    · exact ih req out hmore ht hm h
    · rename_i s hf
      exact ih { req with Topic := s } out hmore (hv key s (List.mem_cons_self _ _)) hm h
    · rename_i s hf
      exact ih { req with Message := s } out hmore ht (hv key s (List.mem_cons_self _ _)) h
    · exact absurd h (by simp)

theorem Unmarshal_valid (data : GoString) (req : PublishReq) (h : Unmarshal data = some req) :
    Valid req.Topic ∧ Valid req.Message := by
  unfold Unmarshal at h
  split at h
  · exact absurd h (by simp)
  · exact absurd h (by simp)
  · simp only [Option.some.injEq] at h
    exact h ▸ ⟨Valid_nil, Valid_nil⟩
  · rename_i members hp
    exact storeMembers_valid members _ req (parseTop_str data members hp) Valid_nil Valid_nil h

theorem Scalar_char (c : Char) : Scalar c.toNat := by
  have h := c.valid
  unfold Scalar Char.toNat
  unfold UInt32.isValidChar Nat.isValidChar at h
  exact h.imp id (fun h => ⟨by omega, h.2⟩)

theorem Valid_lit (s : String) : Valid (lit s) :=
  ⟨s.data.map Char.toNat, by
    intro c hc
    obtain ⟨a, _, rfl⟩ := List.mem_map.mp hc
    exact Scalar_char a, by
    unfold lit
    rw [List.flatMap_map]⟩

theorem skipSpace_quote (x : List Nat) : skipSpace (ch '"' :: x) = ch '"' :: x := rfl

theorem skipSpace_colon (x : List Nat) : skipSpace (ch ':' :: x) = ch ':' :: x := rfl

theorem skipSpace_comma (x : List Nat) : skipSpace (ch ',' :: x) = ch ',' :: x := rfl

theorem skipSpace_open (x : List Nat) : skipSpace (ch '\x7b' :: x) = ch '\x7b' :: x := rfl

theorem skipSpace_close (x : List Nat) : skipSpace (ch '\x7d' :: x) = ch '\x7d' :: x := rfl

theorem scanValue_string (fuel d : Nat) (s : GoString) (rest : List Nat) (h : Valid s) :
    scanValue (fuel + 1) d (appendString s ++ rest) = some (Val.str s, rest) := by
  obtain ⟨tl, h1, h2⟩ := appendString_read s rest h
  rw [h1, scanValue, skipSpace_quote]
  simp only [h2, (by decide : ch '"' ≠ ch '\x7b'), (by decide : ch '"' ≠ ch '['), ↓reduceIte]

theorem scanMembers_last (fuel d : Nat) (k v : GoString) (rest : List Nat)
    (hk : Valid k) (hv : Valid v) :
    scanMembers (fuel + 2) d (appendString k ++ ch ':' :: (appendString v ++ ch '\x7d' :: rest))
      = some ([(k, Val.str v)], rest) := by
  obtain ⟨tl, h1, h2⟩ := appendString_read k
    (ch ':' :: (appendString v ++ ch '\x7d' :: rest)) hk
  rw [h1, scanMembers, skipSpace_quote]
  simp only [h2, skipSpace_colon, skipSpace_close, scanValue_string fuel d v _ hv, ↓reduceIte]

theorem scanMembers_more (fuel d : Nat) (k v : GoString) (rest : List Nat)
    (hk : Valid k) (hv : Valid v) :
    scanMembers (fuel + 2) d (appendString k ++ ch ':' :: (appendString v ++ ch ',' :: rest))
      = (scanMembers (fuel + 1) d rest).map (fun p => ((k, Val.str v) :: p.1, p.2)) := by
  obtain ⟨tl, h1, h2⟩ := appendString_read k
    (ch ':' :: (appendString v ++ ch ',' :: rest)) hk
  rw [h1, scanMembers, skipSpace_quote]
  simp only [h2, skipSpace_colon, skipSpace_comma, scanValue_string fuel d v _ hv,
    (by decide : ch ',' ≠ ch '\x7d'), ↓reduceIte]
  cases scanMembers (fuel + 1) d rest <;> rfl

theorem Marshal_shape (req : PublishReq) :
    Marshal req = ch '\x7b' :: (appendString (lit "message") ++ ch ':' ::
      (appendString req.Message ++ ch ',' ::
        (appendString (lit "topic") ++ ch ':' :: (appendString req.Topic ++ ch '\x7d' :: [])))) := by
  have e1 : lit "\x7b" = [ch '\x7b'] := rfl
  have e2 : lit ":" = [ch ':'] := rfl
  have e3 : lit "," = [ch ','] := rfl
  have e4 : lit "\x7d" = [ch '\x7d'] := rfl
  unfold Marshal
  rw [e1, e2, e3, e4]
  simp

theorem appendString_length (s : GoString) : 2 ≤ (appendString s).length := by
  unfold appendString
  simp

theorem parseTop_Marshal (req : PublishReq) (ht : Valid req.Topic) (hm : Valid req.Message) :
    parseTop (Marshal req)
      = some (Top.obj [(lit "message", Val.str req.Message), (lit "topic", Val.str req.Topic)]) := by
  have hlen : ∃ n, (Marshal req).length = n + 4 := by
    rw [Marshal_shape]
    have := appendString_length (lit "message")
    have := appendString_length req.Message
    refine ⟨(Marshal req).length - 4, ?_⟩
    rw [Marshal_shape]
    simp only [List.length_cons, List.length_append]
    omega
  obtain ⟨n, hn⟩ := hlen
  unfold parseTop
  rw [hn, Marshal_shape]
  obtain ⟨tl, h1, -⟩ := appendString_read (lit "message")
    (ch ':' :: (appendString req.Message ++ ch ',' ::
        (appendString (lit "topic") ++ ch ':' :: (appendString req.Topic ++ ch '\x7d' :: []))))
    (Valid_lit _)
  have hm1 := scanMembers_more (n + 2) 1 (lit "message") req.Message
    (appendString (lit "topic") ++ ch ':' :: (appendString req.Topic ++ ch '\x7d' :: []))
    (Valid_lit _) hm
  have hm2 := scanMembers_last (n + 1) 1 (lit "topic") req.Topic [] (Valid_lit _) ht
  rw [hm2] at hm1
  rw [h1] at hm1 ⊢
  rw [skipSpace_open]
  simp only [skipSpace_quote, hm1, (by decide : ch '"' ≠ ch '\x7d'), ↓reduceIte]
  rfl

/-! ## sendHandler -/

theorem confirm_reply (w : ResponseWriter) (msg : GoString) (h : w.status = none) :
    ∃ w1, (w.writeHeader StatusOK).map (fun w1 => w1.write msg) = some w1 ∧
      w1.status = some 200 ∧ w1.body = w.body ++ msg := by
  rw [writeHeader_final w StatusOK h (by decide) (by decide) (by decide)]
  refine ⟨_, rfl, ?_, ?_⟩
  · rw [write_status]; rfl
  · rw [write_body]

theorem Served.after_calls (w0 : ResponseWriter) (calls : List Call)
    (ow : Option ResponseWriter) : (Served.after w0 calls ow).exchange.calls = calls := by
  cases ow <;> rfl

/-- The reply of `sendHandler` once the body has decoded to `req`: the one POST,
then what the answer of the upstream selects. -/
theorem sendHandler_decoded (ca : ChatApp) (up : Upstream) (r : Request) (x : Exchange)
    (body : GoString) (req : PublishReq)
    (hm : r.method ≠ lit "OPTIONS") (hb : r.body = some body)
    (hu : Unmarshal body = some req) :
    sendHandler ca up r x = Served.after x.w
      (x.calls ++
        [Call.post (ca.pubsubURL ++ lit "/publish") (lit "application/json") (Marshal req)])
      (match up.post (ca.pubsubURL ++ lit "/publish") (lit "application/json")
          (Marshal req) with
        | none => httpError x.w (lit "Failed to publish message") StatusInternalServerError
        | some s =>
          if s = 200 then
            (x.w.writeHeader StatusOK).map (fun w1 => w1.write (lit "Message sent successfully"))
          else httpError x.w (lit "Failed to publish message") s) := by
  simp only [sendHandler, hm, hb, hu, if_false]
  cases hp : up.post (ca.pubsubURL ++ lit "/publish") (lit "application/json") (Marshal req) with
  | none => rfl
  | some s =>
    by_cases h200 : s = 200
    · simp [h200, StatusOK]
    · simp [h200, StatusOK]

theorem Unmarshal_Marshal (req : PublishReq) (ht : Valid req.Topic) (hm : Valid req.Message) :
    Unmarshal (Marshal req) = some req := by
  unfold Unmarshal
  rw [parseTop_Marshal req ht hm]
  have h1 : fieldOf (lit "message") = some Field.Message := by decide
  have h2 : fieldOf (lit "topic") = some Field.Topic := by decide
  simp only [storeMembers, h1, h2]

/-- C2: when the body of a publish request decodes (`json.Unmarshal` into `req`
succeeds) with the strings t for topic and m for message and the upstream answers
200, sendHandler answers 200 with the body "Message sent successfully", after one
POST to base ++ "/publish" whose JSON body is an object with the two members
"message": m and "topic": t and no other, which decodes to the same pair. -/
theorem publish_round_trip (ca : ChatApp) (up : Upstream) (r : Request) (x : Exchange)
    (body t m : GoString)
    (hm : r.method ≠ lit "OPTIONS") (hb : r.body = some body)
    (hu : Unmarshal body = some { Topic := t, Message := m })
    (hup : ∀ b, up.post (ca.pubsubURL ++ lit "/publish") (lit "application/json") b = some 200)
    (hw : x.w.status = none) :
    ∃ (w1 : ResponseWriter) (posted : GoString),
      sendHandler ca up r x = Served.returned
        { w := w1,
          calls := x.calls ++
            [Call.post (ca.pubsubURL ++ lit "/publish") (lit "application/json") posted] } ∧
      w1.status = some 200 ∧
      w1.body = x.w.body ++ lit "Message sent successfully" ∧
      parseTop posted = some (Top.obj [(lit "message", Val.str m), (lit "topic", Val.str t)]) ∧
      Unmarshal posted = some { Topic := t, Message := m } := by
  obtain ⟨vt, vm⟩ := Unmarshal_valid body _ hu
  obtain ⟨w1, hc, hs, hbd⟩ := confirm_reply x.w (lit "Message sent successfully") hw
  refine ⟨w1, Marshal { Topic := t, Message := m }, ?_, hs, hbd,
    parseTop_Marshal _ vt vm, Unmarshal_Marshal _ vt vm⟩
  rw [sendHandler_decoded ca up r x body _ hm hb hu, hup]
  simp only [if_true, hc, Served.after]

/-- C4: a request to /send that is not OPTIONS and whose body cannot be read or
is not valid JSON is answered with status 400, and no call is made upstream. -/
theorem send_invalid_json (ca : ChatApp) (up : Upstream) (r : Request) (x : Exchange)
    (hm : r.method ≠ lit "OPTIONS")
    (hbad : r.body = none ∨ ∃ b, r.body = some b ∧ parseTop b = none)
    (hw : x.w.status = none) :
    ∃ w1 : ResponseWriter,
      sendHandler ca up r x = Served.returned { w := w1, calls := x.calls } ∧
      w1.status = some 400 ∧
      (w1.body = x.w.body ++ lit "Cannot read body\n" ∨
        w1.body = x.w.body ++ lit "Invalid JSON\n") := by
  rcases hbad with hb | ⟨b, hb, hp⟩
  · obtain ⟨w1, he, hs, hbd, _⟩ := httpError_final x.w (lit "Cannot read body")
      StatusBadRequest hw (by decide) (by decide) (by decide)
    refine ⟨w1, ?_, hs, Or.inl (by rw [hbd]; rfl)⟩
    simp only [sendHandler, hm, hb, if_false, he, Served.after]
  · have hu : Unmarshal b = none := by simp [Unmarshal, hp]
    obtain ⟨w1, he, hs, hbd, _⟩ := httpError_final x.w (lit "Invalid JSON")
      StatusBadRequest hw (by decide) (by decide) (by decide)
    refine ⟨w1, ?_, hs, Or.inr (by rw [hbd]; rfl)⟩
    simp only [sendHandler, hm, hb, hu, if_false, he, Served.after]

/-- C5, as the code has it: for a publish request whose body decoded to `req`,
after the one POST: when the POST fails the client gets status 500 and the line
"Failed to publish message"; when the upstream answers a status s other than
200 that is at least 100 (and is a status the client can return: three digits,
not an interim 1xx other than 101) the client gets that same status s and the
same line; and the confirmation "Message sent successfully" is written only when
the upstream answered 200. -/
theorem publish_failure_mapping (ca : ChatApp) (up : Upstream) (r : Request) (x : Exchange)
    (body : GoString) (req : PublishReq)
    (hm : r.method ≠ lit "OPTIONS") (hb : r.body = some body)
    (hu : Unmarshal body = some req) (hw : x.w.status = none) :
    (up.post (ca.pubsubURL ++ lit "/publish") (lit "application/json") (Marshal req) = none →
      ∃ w1 : ResponseWriter,
        sendHandler ca up r x = Served.returned
          { w := w1, calls := x.calls ++
              [Call.post (ca.pubsubURL ++ lit "/publish") (lit "application/json")
                (Marshal req)] } ∧
        w1.status = some 500 ∧ w1.body = x.w.body ++ lit "Failed to publish message\n") ∧
    (∀ s, up.post (ca.pubsubURL ++ lit "/publish") (lit "application/json")
        (Marshal req) = some s → s ≠ 200 → 100 ≤ s → clientStatus s = true →
      ∃ w1 : ResponseWriter,
        sendHandler ca up r x = Served.returned
          { w := w1, calls := x.calls ++
              [Call.post (ca.pubsubURL ++ lit "/publish") (lit "application/json")
                (Marshal req)] } ∧
        w1.status = some s ∧ w1.body = x.w.body ++ lit "Failed to publish message\n") ∧
    ((sendHandler ca up r x).exchange.w.body = x.w.body ++ lit "Message sent successfully" →
      up.post (ca.pubsubURL ++ lit "/publish") (lit "application/json")
          (Marshal req) = some 200) := by
  have hne : lit "Failed to publish message" ++ lit "\n" ≠ lit "Message sent successfully" := by
    decide
  have hne2 : lit "Message sent successfully" ≠ [] := by decide
  have hd := sendHandler_decoded ca up r x body req hm hb hu
  refine ⟨?_, ?_, ?_⟩
  · intro hp
    obtain ⟨w1, he, hs, hbd, _⟩ := httpError_final x.w (lit "Failed to publish message")
      StatusInternalServerError hw (by decide) (by decide) (by decide)
    rw [hp] at hd
    simp only [he, Served.after] at hd
    exact ⟨w1, hd, hs, by rw [hbd]; rfl⟩
  · intro s hp hs h100 hcl
    have hcl2 : s ≤ 999 ∧ ¬(100 ≤ s ∧ s ≤ 199 ∧ s ≠ 101) := by
      simp only [clientStatus, StatusSwitchingProtocols, Bool.decide_and, Bool.and_eq_true,
        decide_eq_true_eq] at hcl
      exact hcl
    obtain ⟨w1, he, hst, hbd, _⟩ := httpError_final x.w (lit "Failed to publish message")
      s hw h100 hcl2.1 hcl2.2
    rw [hp] at hd
    simp only [hs, if_false, he, Served.after] at hd
    exact ⟨w1, hd, hst, by rw [hbd]; rfl⟩
  · intro hc
    rw [hd] at hc
    cases hp : up.post (ca.pubsubURL ++ lit "/publish") (lit "application/json") (Marshal req) with
    | none =>
      obtain ⟨w1, he, _, hbd, _⟩ := httpError_final x.w (lit "Failed to publish message")
        StatusInternalServerError hw (by decide) (by decide) (by decide)
      rw [hp] at hc
      simp only [he, Served.after, Served.exchange, hbd] at hc
      exact absurd (List.append_cancel_left hc) hne
    | some s =>
      by_cases h200 : s = 200
      · rw [h200]
      · rw [hp] at hc
        simp only [h200, if_false] at hc
        cases he : httpError x.w (lit "Failed to publish message") s with
        | none =>
          rw [he] at hc
          simp only [Served.after, Served.exchange] at hc
          exact absurd (List.self_eq_append_right.mp hc) hne2
        | some w1 =>
          rw [he] at hc
          simp only [Served.after, Served.exchange, httpError_body _ _ _ _ he] at hc
          exact absurd (List.append_cancel_left hc) hne

theorem storeMembers_keeps_topic (members : List (GoString × Val)) :
    ∀ (req out : PublishReq), storeMembers members req = some out →
      (∀ kv ∈ members, fieldOf kv.1 ≠ some Field.Topic) → out.Topic = req.Topic := by
  induction members with
  | nil =>
    intro req out h _
    simp only [storeMembers, Option.some.injEq] at h
    rw [h]
  | cons kv more ih =>
    intro req out h hno
    obtain ⟨key, v⟩ := kv
    have hk : fieldOf key ≠ some Field.Topic := hno (key, v) (List.mem_cons_self _ _)
    have hmore : ∀ kv ∈ more, fieldOf kv.1 ≠ some Field.Topic :=
      fun kv hkv => hno kv (List.mem_cons_of_mem _ hkv)
    unfold storeMembers at h
    split at h
    · exact ih req out h hmore
    · exact ih req out h hmore
    · exact absurd ‹fieldOf key = some Field.Topic› hk
    · have h1 := ih _ out h hmore
      exact h1
    · exact absurd h (by simp)

theorem storeMembers_keeps_message (members : List (GoString × Val)) :
    ∀ (req out : PublishReq), storeMembers members req = some out →
      (∀ kv ∈ members, fieldOf kv.1 ≠ some Field.Message) → out.Message = req.Message := by
  induction members with
  | nil =>
    intro req out h _
    simp only [storeMembers, Option.some.injEq] at h
    rw [h]
  | cons kv more ih =>
    intro req out h hno
    obtain ⟨key, v⟩ := kv
    have hk : fieldOf key ≠ some Field.Message := hno (key, v) (List.mem_cons_self _ _)
    have hmore : ∀ kv ∈ more, fieldOf kv.1 ≠ some Field.Message :=
      fun kv hkv => hno kv (List.mem_cons_of_mem _ hkv)
    unfold storeMembers at h
    split at h
    · exact ih req out h hmore
    · exact ih req out h hmore
    · have h1 := ih _ out h hmore
      exact h1
    · exact absurd ‹fieldOf key = some Field.Message› hk
    · exact absurd h (by simp)

theorem Unmarshal_missing (body : GoString) (req : PublishReq)
    (hu : Unmarshal body = some req) :
    (namesField body Field.Topic = false → req.Topic = []) ∧
      (namesField body Field.Message = false → req.Message = []) := by
  unfold Unmarshal at hu
  unfold namesField membersOf
  split at hu
  · exact absurd hu (by simp)
  · exact absurd hu (by simp)
  · simp only [Option.some.injEq] at hu
    subst hu
    exact ⟨fun _ => rfl, fun _ => rfl⟩
  · rename_i members hp
    rw [hp]
    simp only [List.any_eq_false, beq_iff_eq]
    exact ⟨fun h => storeMembers_keeps_topic members _ req hu h,
      fun h => storeMembers_keeps_message members _ req hu h⟩

/-- C9, as the code has it: no field of a publish request is required. For a
body that `json.Unmarshal` decodes into `req`, a field that no member of the
object names (up to case) is the empty string, the publish is forwarded upstream
in one POST of the two fields, and when the upstream answers 200 the client gets
200 and the confirmation; a body that `json.Unmarshal` rejects is not forwarded
and gets status 400. -/
theorem publish_fields_optional (ca : ChatApp) (up : Upstream) (r : Request) (x : Exchange)
    (body : GoString)
    (hm : r.method ≠ lit "OPTIONS") (hb : r.body = some body) (hw : x.w.status = none) :
    (∀ req : PublishReq, Unmarshal body = some req →
      (sendHandler ca up r x).exchange.calls = x.calls ++
          [Call.post (ca.pubsubURL ++ lit "/publish") (lit "application/json")
            (Marshal req)] ∧
      (namesField body Field.Topic = false → req.Topic = []) ∧
      (namesField body Field.Message = false → req.Message = []) ∧
      (up.post (ca.pubsubURL ++ lit "/publish") (lit "application/json") (Marshal req) = some 200 →
        ∃ w1 : ResponseWriter,
          sendHandler ca up r x = Served.returned
            { w := w1, calls := x.calls ++
                [Call.post (ca.pubsubURL ++ lit "/publish") (lit "application/json")
                  (Marshal req)] } ∧
          w1.status = some 200 ∧ w1.body = x.w.body ++ lit "Message sent successfully")) ∧
    (Unmarshal body = none →
      ∃ w1 : ResponseWriter,
        sendHandler ca up r x = Served.returned { w := w1, calls := x.calls } ∧
        w1.status = some 400) := by
  refine ⟨fun req hu => ?_, fun hu => ?_⟩
  · have hd := sendHandler_decoded ca up r x body req hm hb hu
    refine ⟨by rw [hd, Served.after_calls], (Unmarshal_missing body req hu).1,
      (Unmarshal_missing body req hu).2, fun hp => ?_⟩
    obtain ⟨w1, hc, hs, hbd⟩ := confirm_reply x.w (lit "Message sent successfully") hw
    rw [hp] at hd
    simp only [if_true, hc, Served.after] at hd
    exact ⟨w1, hd, hs, hbd⟩
  · obtain ⟨w1, he, hs, _, _⟩ := httpError_final x.w (lit "Invalid JSON")
      StatusBadRequest hw (by decide) (by decide) (by decide)
    refine ⟨w1, ?_, hs⟩
    simp only [sendHandler, hm, hb, hu, if_false, he, Served.after]

theorem publish_round_trip_witness :
    ∃ (w1 : ResponseWriter) (posted : GoString),
      sendHandler chatApp chatty postBoth Exchange.fresh = Served.returned
        { w := w1,
          calls := Exchange.fresh.calls ++
            [Call.post (chatApp.pubsubURL ++ lit "/publish") (lit "application/json") posted] } ∧
      w1.status = some 200 ∧
      w1.body = Exchange.fresh.w.body ++ lit "Message sent successfully" ∧
      parseTop posted
        = some (Top.obj [(lit "message", Val.str (lit "hi")), (lit "topic", Val.str (lit "a"))]) ∧
      Unmarshal posted = some { Topic := lit "a", Message := lit "hi" } :=
  publish_round_trip chatApp chatty postBoth Exchange.fresh
    (lit "\x7b\"topic\":\"a\",\"message\":\"hi\"\x7d") (lit "a") (lit "hi")
    (by decide) rfl (by decide) (fun _ => rfl) rfl

theorem send_invalid_json_witness :
    ∃ w1 : ResponseWriter,
      sendHandler chatApp chatty postBroken Exchange.fresh
        = Served.returned { w := w1, calls := Exchange.fresh.calls } ∧
      w1.status = some 400 ∧
      (w1.body = Exchange.fresh.w.body ++ lit "Cannot read body\n" ∨
        w1.body = Exchange.fresh.w.body ++ lit "Invalid JSON\n") :=
  send_invalid_json chatApp chatty postBroken Exchange.fresh (by decide)
    (Or.inr ⟨lit "\x7b\"topic\":", rfl, by decide⟩) rfl

theorem publish_failure_mapping_witness :
    ∃ w1 : ResponseWriter,
      sendHandler chatApp refusing postBoth Exchange.fresh = Served.returned
        { w := w1,
          calls := Exchange.fresh.calls ++
            [Call.post (chatApp.pubsubURL ++ lit "/publish") (lit "application/json")
              (Marshal { Topic := lit "a", Message := lit "hi" })] } ∧
      w1.status = some 404 ∧
      w1.body = Exchange.fresh.w.body ++ lit "Failed to publish message\n" :=
  (publish_failure_mapping chatApp refusing postBoth Exchange.fresh
    (lit "\x7b\"topic\":\"a\",\"message\":\"hi\"\x7d") { Topic := lit "a", Message := lit "hi" }
    (by decide) rfl (by decide) rfl).2.1 404 rfl (by decide) (by decide) (by decide)

/-- C5 as stated fails at an upstream status below 100: when the upstream answers
a publish with the status 099, `http.Error` panics in `WriteHeader(99)` and the
client gets neither the status 99 nor a failure body. -/
theorem publish_status_99_panics :
    sendHandler chatApp garbled postBoth Exchange.fresh = Served.panicked
      { w := { header := [], status := none, sent := [], body := [], flushed := 0 },
        calls :=
          [Call.post (lit "http://localhost:8080/publish") (lit "application/json")
            (lit "\x7b\"message\":\"hi\",\"topic\":\"a\"\x7d")] } := by
  decide

theorem publish_fields_optional_witness :
    (sendHandler chatApp chatty postTopicOnly Exchange.fresh).exchange.calls
        = Exchange.fresh.calls ++
          [Call.post (chatApp.pubsubURL ++ lit "/publish") (lit "application/json")
            (Marshal { Topic := lit "a", Message := [] })] ∧
      (namesField (lit "\x7b\"topic\":\"a\"\x7d") Field.Topic = false →
        ({ Topic := lit "a", Message := [] } : PublishReq).Topic = []) ∧
      (namesField (lit "\x7b\"topic\":\"a\"\x7d") Field.Message = false →
        ({ Topic := lit "a", Message := [] } : PublishReq).Message = []) ∧
      (chatty.post (chatApp.pubsubURL ++ lit "/publish") (lit "application/json")
          (Marshal { Topic := lit "a", Message := [] }) = some 200 →
        ∃ w1 : ResponseWriter,
          sendHandler chatApp chatty postTopicOnly Exchange.fresh = Served.returned
            { w := w1,
              calls := Exchange.fresh.calls ++
                [Call.post (chatApp.pubsubURL ++ lit "/publish") (lit "application/json")
                  (Marshal { Topic := lit "a", Message := [] })] } ∧
          w1.status = some 200 ∧
          w1.body = Exchange.fresh.w.body ++ lit "Message sent successfully") :=
  (publish_fields_optional chatApp chatty postTopicOnly Exchange.fresh
    (lit "\x7b\"topic\":\"a\"\x7d") (by decide) rfl rfl).1
    { Topic := lit "a", Message := [] } (by decide)

/-- C9 as stated fails: the bodies {} and {"topic":"a"} are forwarded upstream
with the missing fields empty, and with the upstream answering 200 the client
gets 200 and the confirmation, not a 400. -/
theorem publish_without_fields_forwarded :
    sendHandler chatApp chatty postEmptyObject Exchange.fresh = Served.returned
        { w :=
            { header := [], status := some 200, sent := [],
              body := lit "Message sent successfully", flushed := 0 },
          calls :=
            [Call.post (lit "http://localhost:8080/publish") (lit "application/json")
              (lit "\x7b\"message\":\"\",\"topic\":\"\"\x7d")] } ∧
      sendHandler chatApp chatty postTopicOnly Exchange.fresh = Served.returned
        { w :=
            { header := [], status := some 200, sent := [],
              body := lit "Message sent successfully", flushed := 0 },
          calls :=
            [Call.post (lit "http://localhost:8080/publish") (lit "application/json")
              (lit "\x7b\"message\":\"\",\"topic\":\"a\"\x7d")] } := by
  decide

/-! ## The model: the fuel of the loops is enough, the session relays like the loop -/

theorem cut_snd_length (sep : Nat) (q q1 : GoString) (h : (cut sep q).2 = some q1) :
    q1.length < q.length := by
  induction q with
  | nil => simp [cut] at h
  | cons c rest ih =>
    unfold cut at h
    split_ifs at h
    · simp only [Option.some.injEq] at h
      subst h
      simp
    · have := ih h
      simp only [List.length_cons]
      omega

theorem parseQuery_nil (fuel : Nat) : parseQuery fuel [] = [] := by
  cases fuel <;> simp [parseQuery]

theorem parseQuery_fuel (fuel : Nat) :
    ∀ (more : Nat) (query : GoString), query.length ≤ fuel → query.length ≤ more →
      parseQuery fuel query = parseQuery more query := by
  induction fuel with
  | zero =>
    intro more query h _
    have : query = [] := List.length_eq_zero.mp (Nat.le_zero.mp h)
    rw [this, parseQuery_nil, parseQuery_nil]
  | succ n ih =>
    intro more query h1 h2
    cases more with
    | zero =>
      have : query = [] := List.length_eq_zero.mp (Nat.le_zero.mp h2)
      rw [this, parseQuery_nil, parseQuery_nil]
    | succ m =>
      by_cases hq : query = []
      · rw [hq, parseQuery_nil, parseQuery_nil]
      · have hlen : ((cut (ch '&') query).2.getD []).length < query.length := by
          cases hc : (cut (ch '&') query).2 with
          | none =>
            simp only [Option.getD_none, List.length_nil]
            exact List.length_pos.mpr hq
          | some q1 => exact cut_snd_length _ _ _ hc
        have hrec := ih m ((cut (ch '&') query).2.getD []) (by omega) (by omega)
        simp only [parseQuery, hq, if_false, hrec]

/-- The fuel `Query` gives to the loop of `ParseQuery` is enough: more changes
nothing. -/
theorem Query_fuel (rawQuery : GoString) (fuel : Nat) (h : rawQuery.length ≤ fuel) :
    parseQuery fuel rawQuery = Query rawQuery :=
  parseQuery_fuel fuel rawQuery.length rawQuery h (Nat.le_refl _)

theorem skipSpace_length (l : List Nat) : (skipSpace l).length ≤ l.length := by
  induction l with
  | nil => simp [skipSpace]
  | cons c rest ih =>
    unfold skipSpace
    split_ifs
    · simp only [List.length_cons]; omega
    · exact Nat.le_refl _

theorem skipDigits_length (l : List Nat) : (skipDigits l).length ≤ l.length := by
  induction l with
  | nil => simp [skipDigits]
  | cons c rest ih =>
    unfold skipDigits
    split_ifs
    · simp only [List.length_cons]; omega
    · exact Nat.le_refl _

theorem scanExp_length (l r : List Nat) (h : scanExp l = some r) : r.length ≤ l.length := by
  unfold scanExp at h
  split at h
  · simp only [Option.some.injEq] at h; subst h; simp
  · split_ifs at h
    · split at h
      · exact absurd h (by simp)
      · split_ifs at h
        · split at h
          · exact absurd h (by simp)
          · split_ifs at h
            simp only [Option.some.injEq] at h
            subst h
            have := skipDigits_length ‹List Nat›
            simp only [List.length_cons]
            omega
        · simp only [Option.some.injEq] at h
          subst h
          have := skipDigits_length ‹List Nat›
          simp only [List.length_cons]
          omega
    · simp only [Option.some.injEq] at h; subst h; simp

theorem scanFrac_length (l r : List Nat) (h : scanFrac l = some r) : r.length ≤ l.length := by
  unfold scanFrac at h
  split at h
  · simp only [Option.some.injEq] at h; subst h; simp
  · split_ifs at h
    · split at h
      · exact absurd h (by simp)
      · rename_i d rest1
        split_ifs at h
        have h1 := scanExp_length _ _ h
        have h2 := skipDigits_length rest1
        simp only [List.length_cons]
        omega
    · exact scanExp_length _ _ h

theorem scanInt_length (l r : List Nat) (h : scanInt l = some r) : r.length < l.length := by
  unfold scanInt at h
  split at h
  · exact absurd h (by simp)
  · rename_i c rest
    split_ifs at h
    · have := scanFrac_length _ _ h
      simp only [List.length_cons]; omega
    · have h1 := scanFrac_length _ _ h
      have h2 := skipDigits_length rest
      simp only [List.length_cons]; omega

theorem scanNumber_length (l r : List Nat) (h : scanNumber l = some r) :
    r.length < l.length := by
  unfold scanNumber at h
  split at h
  · exact absurd h (by simp)
  · split_ifs at h
    · have := scanInt_length _ _ h
      simp only [List.length_cons]; omega
    · exact scanInt_length _ _ h

theorem expect_length (word l r : List Nat) (h : expect word l = some r) :
    r.length ≤ l.length := by
  induction word generalizing l with
  | nil => simp only [expect, Option.some.injEq] at h; subst h; exact Nat.le_refl _
  | cons a word ih =>
    cases l with
    | nil => simp [expect] at h
    | cons c input =>
      unfold expect at h
      split_ifs at h
      have := ih _ h
      simp only [List.length_cons]; omega

theorem readStringFrom_length (input : List Nat) :
    ∀ (skip : Nat) (s : GoString) (rest : List Nat),
      readStringFrom skip input = some (s, rest) → rest.length < input.length := by
  induction input with
  | nil => intro skip s rest h; simp [readStringFrom] at h
  | cons c tl ih =>
    intro skip s rest h
    cases skip with
    | succ n =>
      have := ih n s rest (by simpa [readStringFrom] using h)
      simp only [List.length_cons]; omega
    | zero =>
      rw [readStringFrom] at h
      split at h
      · simp only [Option.some.injEq, Prod.mk.injEq] at h
        rw [← h.2]; simp
      · exact absurd h (by simp)
      · split at h
        · rename_i s1 after hrec
          simp only [Option.some.injEq, Prod.mk.injEq] at h
          have := ih _ _ _ hrec
          rw [← h.2]
          simp only [List.length_cons]; omega
        · exact absurd h (by simp)

theorem readString_length (input : List Nat) (s : GoString) (rest : List Nat)
    (h : readString input = some (s, rest)) : rest.length < input.length :=
  readStringFrom_length input 0 s rest h

theorem skipSpace_cons_length (l rest : List Nat) (c : Nat) (h : skipSpace l = c :: rest) :
    rest.length < l.length := by
  have := skipSpace_length l
  rw [h] at this
  simp only [List.length_cons] at this
  omega

theorem scan_length (fuel : Nat) :
    (∀ (d : Nat) (inp : List Nat) (v : Val) (r : List Nat),
      scanValue fuel d inp = some (v, r) → r.length < inp.length) ∧
    (∀ (d : Nat) (inp : List Nat) (v : Val) (r : List Nat),
      scanElems fuel d inp = some (v, r) → r.length < inp.length) ∧
    (∀ (d : Nat) (inp : List Nat) (kvs : List (GoString × Val)) (r : List Nat),
      scanMembers fuel d inp = some (kvs, r) → r.length < inp.length) := by
  induction fuel with
  | zero =>
    refine ⟨?_, ?_, ?_⟩ <;> intro d inp v r h
    · simp [scanValue] at h
    · simp [scanElems] at h
    · simp [scanMembers] at h
  | succ n ih =>
    obtain ⟨ihV, ihE, ihM⟩ := ih
    refine ⟨?_, ?_, ?_⟩
    · intro d inp v r h
      cases hsk : skipSpace inp with
      | nil => simp [scanValue, hsk] at h
      | cons c rest =>
        have hl := skipSpace_cons_length _ _ _ hsk
        simp only [scanValue, hsk] at h
        split_ifs at h
        · cases hsk1 : skipSpace rest with
          | nil => simp [hsk1] at h
          | cons c1 rest1 =>
            have hl1 := skipSpace_cons_length _ _ _ hsk1
            simp only [hsk1] at h
            split_ifs at h
            · simp only [Option.some.injEq, Prod.mk.injEq] at h
              rw [← h.2]; omega
            · split at h
              · rename_i ms after hms
                simp only [Option.some.injEq, Prod.mk.injEq] at h
                have := ihM _ _ _ _ hms
                simp only [List.length_cons] at this
                rw [← h.2]; omega
              · exact absurd h (by simp)
        · cases hsk1 : skipSpace rest with
          | nil => simp [hsk1] at h
          | cons c1 rest1 =>
            have hl1 := skipSpace_cons_length _ _ _ hsk1
            simp only [hsk1] at h
            split_ifs at h
            · simp only [Option.some.injEq, Prod.mk.injEq] at h
              rw [← h.2]; omega
            · split at h
              · rename_i v1 after hv1
                have h1 := ihV _ _ _ _ hv1
                have h2 := ihE _ _ _ _ h
                simp only [List.length_cons] at h1
                omega
              · exact absurd h (by simp)
        · split at h
          · rename_i s after hs
            simp only [Option.some.injEq, Prod.mk.injEq] at h
            have := readString_length _ _ _ hs
            rw [← h.2]; omega
          · exact absurd h (by simp)
        · split at h
          · rename_i after hs
            simp only [Option.some.injEq, Prod.mk.injEq] at h
            have := scanNumber_length _ _ hs
            simp only [List.length_cons] at this
            rw [← h.2]; omega
          · exact absurd h (by simp)
        · split at h
          · rename_i after hs
            simp only [Option.some.injEq, Prod.mk.injEq] at h
            have := expect_length _ _ _ hs
            rw [← h.2]; omega
          · exact absurd h (by simp)
        · split at h
          · rename_i after hs
            simp only [Option.some.injEq, Prod.mk.injEq] at h
            have := expect_length _ _ _ hs
            rw [← h.2]; omega
          · exact absurd h (by simp)
        · split at h
          · rename_i after hs
            simp only [Option.some.injEq, Prod.mk.injEq] at h
            have := expect_length _ _ _ hs
            rw [← h.2]; omega
          · exact absurd h (by simp)
    · intro d inp v r h
      cases hsk : skipSpace inp with
      | nil => simp [scanElems, hsk] at h
      | cons c rest =>
        have hl := skipSpace_cons_length _ _ _ hsk
        simp only [scanElems, hsk] at h
        split_ifs at h
        · simp only [Option.some.injEq, Prod.mk.injEq] at h
          rw [← h.2]; omega
        · split at h
          · rename_i v1 after hv1
            have h1 := ihV _ _ _ _ hv1
            have h2 := ihE _ _ _ _ h
            omega
          · exact absurd h (by simp)
    · intro d inp kvs r h
      cases hsk : skipSpace inp with
      | nil => simp [scanMembers, hsk] at h
      | cons c rest =>
        have hl := skipSpace_cons_length _ _ _ hsk
        simp only [scanMembers, hsk] at h
        split_ifs at h
        split at h
        · exact absurd h (by simp)
        · rename_i key rest1 hkey
          have hk := readString_length _ _ _ hkey
          cases hsk1 : skipSpace rest1 with
          | nil => simp [hsk1] at h
          | cons colon rest2 =>
            have hl1 := skipSpace_cons_length _ _ _ hsk1
            simp only [hsk1] at h
            split_ifs at h
            split at h
            · exact absurd h (by simp)
            · rename_i v1 rest3 hv1
              have h3 := ihV _ _ _ _ hv1
              cases hsk3 : skipSpace rest3 with
              | nil => simp [hsk3] at h
              | cons c3 rest4 =>
                have hl3 := skipSpace_cons_length _ _ _ hsk3
                simp only [hsk3] at h
                split_ifs at h
                · simp only [Option.some.injEq, Prod.mk.injEq] at h
                  rw [← h.2]; omega
                · split at h
                  · rename_i more after hmore
                    simp only [Option.some.injEq, Prod.mk.injEq] at h
                    have := ihM _ _ _ _ hmore
                    rw [← h.2]; omega
                  · exact absurd h (by simp)

theorem scan_fuel (fuel : Nat) : ∀ more : Nat,
    (∀ (d : Nat) (inp : List Nat), inp.length < fuel → inp.length < more →
      scanValue fuel d inp = scanValue more d inp) ∧
    (∀ (d : Nat) (inp : List Nat), inp.length < fuel → inp.length < more →
      scanElems fuel d inp = scanElems more d inp) ∧
    (∀ (d : Nat) (inp : List Nat), inp.length < fuel → inp.length < more →
      scanMembers fuel d inp = scanMembers more d inp) := by
  induction fuel with
  | zero =>
    intro more
    refine ⟨?_, ?_, ?_⟩ <;> intro d inp h <;> omega
  | succ n ih =>
    intro more
    cases more with
    | zero => refine ⟨?_, ?_, ?_⟩ <;> intro d inp _ h <;> omega
    | succ m =>
      obtain ⟨ihV, ihE, ihM⟩ := ih m
      obtain ⟨lenV, lenE, lenM⟩ := scan_length m
      refine ⟨?_, ?_, ?_⟩
      · intro d inp h1 h2
        cases hsk : skipSpace inp with
        | nil => simp [scanValue, hsk]
        | cons c rest =>
          have hl := skipSpace_cons_length _ _ _ hsk
          simp only [scanValue, hsk]
          cases hsk1 : skipSpace rest with
          | nil => rfl
          | cons c1 rest1 =>
            have hl1 := skipSpace_cons_length _ _ _ hsk1
            have hc1 : (c1 :: rest1).length < n ∧ (c1 :: rest1).length < m := by
              simp only [List.length_cons]; omega
            simp only []
            rw [ihM (d + 1) (c1 :: rest1) hc1.1 hc1.2, ihV (d + 1) (c1 :: rest1) hc1.1 hc1.2]
            cases hv : scanValue m (d + 1) (c1 :: rest1) with
            | none => rfl
            | some p =>
              obtain ⟨v1, after⟩ := p
              have := lenV _ _ _ _ hv
              simp only []
              rw [ihE (d + 1) after (by omega) (by omega)]
      · intro d inp h1 h2
        cases hsk : skipSpace inp with
        | nil => simp [scanElems, hsk]
        | cons c rest =>
          have hl := skipSpace_cons_length _ _ _ hsk
          simp only [scanElems, hsk]
          rw [ihV d rest (by omega) (by omega)]
          cases hv : scanValue m d rest with
          | none => rfl
          | some p =>
            obtain ⟨v1, after⟩ := p
            have := lenV _ _ _ _ hv
            simp only []
            rw [ihE d after (by omega) (by omega)]
      · intro d inp h1 h2
        cases hsk : skipSpace inp with
        | nil => simp [scanMembers, hsk]
        | cons c rest =>
          have hl := skipSpace_cons_length _ _ _ hsk
          simp only [scanMembers, hsk]
          cases hkey : readString rest with
          | none => rfl
          | some p =>
            obtain ⟨key, rest1⟩ := p
            have hk := readString_length _ _ _ hkey
            simp only []
            cases hsk1 : skipSpace rest1 with
            | nil => rfl
            | cons colon rest2 =>
              have hl1 := skipSpace_cons_length _ _ _ hsk1
              simp only []
              rw [ihV d rest2 (by omega) (by omega)]
              cases hv : scanValue m d rest2 with
              | none => rfl
              | some q =>
                obtain ⟨v1, rest3⟩ := q
                have := lenV _ _ _ _ hv
                simp only []
                cases hsk3 : skipSpace rest3 with
                | nil => rfl
                | cons c3 rest4 =>
                  have hl3 := skipSpace_cons_length _ _ _ hsk3
                  simp only []
                  rw [ihM d rest4 (by omega) (by omega)]

theorem Session.step_w (s t : Session) (e : Event) (h : s.step e = some t) :
    t.w = relaySoFar (readsOf [e]) s.w := by
  cases e with
  | read r =>
    cases hm : s.main <;> simp [Session.step, hm] at h
    subst h
    rfl
  | disconnect =>
    by_cases hg : s.gone = true <;> simp [Session.step, hg] at h
    subst h
    rfl
  | watcher =>
    cases hw : s.watcher <;> simp [Session.step, hw] at h
    · obtain ⟨_, rfl⟩ := h; rfl
    · subst h; rfl
    · subst h; rfl
  | wait =>
    cases hm : s.main <;> simp [Session.step, hm] at h
    obtain ⟨_, rfl⟩ := h
    rfl

theorem readsOf_cons (e : Event) (es : List Event) :
    readsOf (e :: es) = readsOf [e] ++ readsOf es := by
  cases e <;> rfl

/-- Whatever the interleaving with the watcher, the writer of a session holds
the records of the reads that have returned, in order. -/
theorem Session.run_w (evs : List Event) :
    ∀ (s t : Session), s.run evs = some t → t.w = relaySoFar (readsOf evs) s.w := by
  induction evs with
  | nil =>
    intro s t h
    simp only [Session.run, Option.some.injEq] at h
    subst h
    rfl
  | cons e es ih =>
    intro s t h
    cases hst : s.step e with
    | none => simp [Session.run, hst] at h
    | some s1 =>
      simp only [Session.run, hst] at h
      rw [ih s1 t h, Session.step_w s s1 e hst, readsOf_cons e es]
      simp [relaySoFar, List.foldl_append]

/-- An object with the two members, in either order, decodes to the pair. -/
theorem storeMembers_both (t m : GoString) :
    storeMembers [(lit "topic", Val.str t), (lit "message", Val.str m)]
        { Topic := [], Message := [] } = some { Topic := t, Message := m } ∧
      storeMembers [(lit "message", Val.str m), (lit "topic", Val.str t)]
        { Topic := [], Message := [] } = some { Topic := t, Message := m } := by
  have h1 : fieldOf (lit "message") = some Field.Message := by decide
  have h2 : fieldOf (lit "topic") = some Field.Topic := by decide
  constructor <;> simp only [storeMembers, h1, h2]

end Gateway
